import Mathlib

/-!
Verification of the maestro orchestrator (src/código/maestro.py) against its
specification.  The Python program is shallowly embedded: JSON values become
the inductive type `J`, `json.loads`/`json.dumps` become a fueled parser and a
serializer over `List Char`, POSIX path manipulation (`os.path.join`,
`os.path.abspath`, `os.path.normpath`) is modelled over `List Char`, and the
`main` step loop becomes an explicit state machine (`step` / `runLoop` /
`runMaestro`) driven by an oracle that abstracts the HTTP transport.

Modelling notes:
* JSON numbers are modelled as integers only: no claim involves
  floating-point values, and floating point is outside the shallow embedding
  (inputs containing floats make the modelled parser fail where Python would
  produce a float).
* Python `None` is modelled as `J.null`; absence of a dictionary key is
  `Option.none` of the lookup.
* The HTTP transport is external: the loop consumes an oracle
  `Nat → Option J` giving, for each in-loop call, either the raw value
  returned by `invoke_model_with_retries` or `none` when that call raised
  after exhausting its retries.
-/

namespace Maestro

/-- JSON/Python value, as produced by `json.loads` in the source. -/
inductive J where
  | null
  | bool (b : Bool)
  | num (n : Int)
  | str (s : String)
  | arr (elems : List J)
  | obj (fields : List (String × J))

mutual

def beqJ : J → J → Bool
  | .null, .null => true
  | .bool a, .bool b => a == b
  | .num a, .num b => a == b
  | .str a, .str b => a == b
  | .arr a, .arr b => beqL a b
  | .obj a, .obj b => beqM a b
  | _, _ => false

def beqL : List J → List J → Bool
  | [], [] => true
  | x :: xs, y :: ys => beqJ x y && beqL xs ys
  | _, _ => false

def beqM : List (String × J) → List (String × J) → Bool
  | [], [] => true
  | (k, v) :: xs, (k2, v2) :: ys => k == k2 && beqJ v v2 && beqM xs ys
  | _, _ => false

end

mutual

theorem beqJ_iff : ∀ (a b : J), beqJ a b = true ↔ a = b
  | .null, b => by cases b <;> simp [beqJ]
  | .bool x, b => by cases b <;> simp [beqJ]
  | .num x, b => by cases b <;> simp [beqJ]
  | .str x, b => by cases b <;> simp [beqJ]
  | .arr xs, b => by
      cases b <;> simp [beqJ]
      exact beqL_iff xs _
  | .obj xs, b => by
      cases b <;> simp [beqJ]
      exact beqM_iff xs _

theorem beqL_iff : ∀ (a b : List J), beqL a b = true ↔ a = b
  | [], b => by cases b <;> simp [beqL]
  | x :: xs, b => by
      cases b with
      | nil => simp [beqL]
      | cons y ys => simp [beqL, Bool.and_eq_true, beqJ_iff x y, beqL_iff xs ys]

theorem beqM_iff : ∀ (a b : List (String × J)), beqM a b = true ↔ a = b
  | [], b => by cases b <;> simp [beqM]
  | (k, v) :: xs, b => by
      cases b with
      | nil => simp [beqM]
      | cons p ys =>
        obtain ⟨k2, v2⟩ := p
        simp [beqM, Bool.and_eq_true, beqJ_iff v v2, beqM_iff xs ys]

end

instance : DecidableEq J := fun a b => decidable_of_iff _ (beqJ_iff a b)

instance : BEq J := ⟨beqJ⟩

instance {ε α : Type} [DecidableEq ε] [DecidableEq α] : DecidableEq (Except ε α) := fun a b =>
  match a, b with
  | .ok x, .ok y => decidable_of_iff (x = y) (by simp)
  | .error x, .error y => decidable_of_iff (x = y) (by simp)
  | .ok _, .error _ => isFalse (by simp)
  | .error _, .ok _ => isFalse (by simp)

/-! ### Python dict / truthiness primitives -/

/-- Python truthiness of a JSON value (`if x:`). -/
def truthy : J → Bool
  | .null => false
  | .bool b => b
  | .num n => n != 0
  | .str s => !s.data.isEmpty
  | .arr l => !l.isEmpty
  | .obj kvs => !kvs.isEmpty

/-- Membership of a key in an association list (`'k' in d`). -/
def hasKeyL (kvs : List (String × J)) (k : String) : Bool :=
  kvs.any (fun p => p.1 == k)

/-- First-match association lookup.  Dictionaries built by the modelled
`json.loads` and by `dictInsert` never contain duplicate keys, so this
coincides with Python's dict lookup. -/
def lookupL (kvs : List (String × J)) (k : String) : Option J :=
  match kvs with
  | [] => none
  | p :: ps => if p.1 == k then some p.2 else lookupL ps k

/-- `d.get(k)` on a Python value: `none` when the value is not a dict or the
key is absent. -/
def jGet (v : J) (k : String) : Option J :=
  match v with
  | .obj kvs => lookupL kvs k
  | _ => none

/-- `d[k] = v` on a Python dict: replace in place when the key exists
(keeping its position), append otherwise. -/
def dictInsert (kvs : List (String × J)) (k : String) (v : J) : List (String × J) :=
  match kvs with
  | [] => [(k, v)]
  | p :: ps => if p.1 == k then (k, v) :: ps else p :: dictInsert ps k v

/-- `dictInsert` lifted to a `J` value (no-op on non-dicts). -/
def objInsert (j : J) (k : String) (v : J) : J :=
  match j with
  | .obj kvs => .obj (dictInsert kvs k v)
  | other => other

/-! ### Characters -/

def lbrace : Char := Char.ofNat 123
def rbrace : Char := Char.ofNat 125

def isWs (c : Char) : Bool := c = ' ' || c = '\t' || c = '\n' || c = '\r'

def isDig (c : Char) : Bool := '0' ≤ c && c ≤ '9'

def digChar (d : Nat) : Char := Char.ofNat (48 + d)

/-- Lowercase hex digit, as produced by Python's `'\u%04x'` escapes. -/
def hexDigChar (d : Nat) : Char :=
  if d < 10 then Char.ofNat (48 + d) else Char.ofNat (87 + d)

def hexVal (c : Char) : Option Nat :=
  if '0' ≤ c ∧ c ≤ '9' then some (c.toNat - 48)
  else if 'a' ≤ c ∧ c ≤ 'f' then some (c.toNat - 87)
  else if 'A' ≤ c ∧ c ≤ 'F' then some (c.toNat - 55)
  else none

/-- JSON short escapes accepted after a backslash (Python `json` decoder). -/
def unescChar (c : Char) : Option Char :=
  if c = '"' then some '"'
  else if c = '\\' then some '\\'
  else if c = '/' then some '/'
  else if c = 'b' then some (Char.ofNat 8)
  else if c = 'f' then some (Char.ofNat 12)
  else if c = 'n' then some '\n'
  else if c = 'r' then some '\r'
  else if c = 't' then some '\t'
  else none

/-- String-character escaping performed by `json.dumps(ensure_ascii=False)`. -/
def escChar (c : Char) : List Char :=
  if c = '"' then ['\\', '"']
  else if c = '\\' then ['\\', '\\']
  else if c = '\n' then ['\\', 'n']
  else if c = '\r' then ['\\', 'r']
  else if c = '\t' then ['\\', 't']
  else if c = Char.ofNat 8 then ['\\', 'b']
  else if c = Char.ofNat 12 then ['\\', 'f']
  else if c.toNat < 32 then
    ['\\', 'u', '0', '0', hexDigChar (c.toNat / 16), hexDigChar (c.toNat % 16)]
  else [c]

def escL : List Char → List Char
  | [] => []
  | c :: cs => escChar c ++ escL cs

/-! ### Decimal numbers -/

/-- Decimal digits of `n`, most significant first (`fuel`-driven; any
`fuel > n` gives the true digits). -/
def natDigitsF : Nat → Nat → List Char
  | 0, _ => []
  | f + 1, n => if n < 10 then [digChar n] else natDigitsF f (n / 10) ++ [digChar (n % 10)]

def natChars (n : Nat) : List Char := natDigitsF (n + 1) n

/-- Python `repr` of an int, as emitted by `json.dumps`. -/
def intChars (n : Int) : List Char :=
  if n < 0 then '-' :: natChars n.natAbs else natChars n.toNat

def digitsToNat (ds : List Char) : Nat :=
  ds.foldl (fun a c => a * 10 + (c.toNat - 48)) 0

/-- Unsigned JSON integer: `0` never starts a longer numeral
(Python's grammar is `0 | [1-9][0-9]*`). -/
def parseUNum : List Char → Option (Nat × List Char)
  | [] => none
  | c :: cs =>
    if c = '0' then some (0, cs)
    else if isDig c then
      some (digitsToNat ((c :: cs).takeWhile isDig), (c :: cs).dropWhile isDig)
    else none

def parseNumber (cs : List Char) : Option (J × List Char) :=
  match cs with
  | '-' :: cs2 =>
    match parseUNum cs2 with
    | some (n, r) => some (.num (-(n : Int)), r)
    | none => none
  | _ =>
    match parseUNum cs with
    | some (n, r) => some (.num (n : Int), r)
    | none => none

/-! ### JSON string bodies -/

/-- Parse the body of a JSON string (after the opening quote), accumulating
into `acc`.  Mirrors Python's strict decoder: raw control characters are
rejected, `\uXXXX` builds the corresponding scalar.  (Surrogate-pair
combination is not modelled; the serializer below never emits surrogates.) -/
def parseStrBody : List Char → List Char → Option (String × List Char)
  | [], _ => none
  | c :: cs, acc =>
    if c = '"' then some (String.mk acc, cs)
    else if c = '\\' then
      match cs with
      | 'u' :: h1 :: h2 :: h3 :: h4 :: cs4 =>
        match hexVal h1, hexVal h2, hexVal h3, hexVal h4 with
        | some a, some b, some c2, some d =>
          parseStrBody cs4 (acc ++ [Char.ofNat (((a * 16 + b) * 16 + c2) * 16 + d)])
        | _, _, _, _ => none
      | e :: cs2 =>
        match unescChar e with
        | some c2 => parseStrBody cs2 (acc ++ [c2])
        | none => none
      | [] => none
    else if c.toNat < 32 then none
    else parseStrBody cs (acc ++ [c])

/-! ### The JSON parser (model of `json.loads`) -/

def skipWs : List Char → List Char
  | [] => []
  | c :: cs => if isWs c then skipWs cs else c :: cs

mutual

def parseVal : Nat → List Char → Option (J × List Char)
  | 0, _ => none
  | fuel + 1, cs =>
    match skipWs cs with
    | [] => none
    | c :: rest =>
      if c = 'n' then
        match rest with
        | 'u' :: 'l' :: 'l' :: r => some (.null, r)
        | _ => none
      else if c = 't' then
        match rest with
        | 'r' :: 'u' :: 'e' :: r => some (.bool true, r)
        | _ => none
      else if c = 'f' then
        match rest with
        | 'a' :: 'l' :: 's' :: 'e' :: r => some (.bool false, r)
        | _ => none
      else if c = '"' then
        match parseStrBody rest [] with
        | some (s, r) => some (.str s, r)
        | none => none
      else if c = '[' then
        match skipWs rest with
        | c2 :: r2 => if c2 = ']' then some (.arr [], r2) else parseElems fuel rest []
        | [] => none
      else if c = lbrace then
        match skipWs rest with
        | c2 :: r2 => if c2 = rbrace then some (.obj [], r2) else parseMembers fuel rest []
        | [] => none
      else parseNumber (c :: rest)

def parseElems : Nat → List Char → List J → Option (J × List Char)
  | 0, _, _ => none
  | fuel + 1, cs, acc =>
    match parseVal fuel cs with
    | none => none
    | some (v, r) =>
      match skipWs r with
      | c :: r2 =>
        if c = ',' then parseElems fuel r2 (acc ++ [v])
        else if c = ']' then some (.arr (acc ++ [v]), r2)
        else none
      | [] => none

def parseMembers : Nat → List Char → List (String × J) → Option (J × List Char)
  | 0, _, _ => none
  | fuel + 1, cs, acc =>
    match skipWs cs with
    | c :: r =>
      if c = '"' then
        match parseStrBody r [] with
        | none => none
        | some (k, r2) =>
          match skipWs r2 with
          | c2 :: r3 =>
            if c2 = ':' then
              match parseVal fuel r3 with
              | none => none
              | some (v, r4) =>
                match skipWs r4 with
                | c3 :: r5 =>
                  if c3 = ',' then parseMembers fuel r5 (dictInsert acc k v)
                  else if c3 = rbrace then some (.obj (dictInsert acc k v), r5)
                  else none
                | [] => none
            else none
          | [] => none
      else none
    | [] => none

end

/-- `json.loads` on a character list: parse one value and require only
whitespace to remain. -/
def loadsL (cs : List Char) : Option J :=
  match parseVal (cs.length + 1) cs with
  | some (v, rest) => if (skipWs rest).isEmpty then some v else none
  | none => none

/-- `json.loads` on a string. -/
def loads (s : String) : Option J := loadsL s.data

/-! ### The JSON serializer (model of `json.dumps(ensure_ascii=False)`,
with Python's default separators `", "` and `": "`) -/

mutual

def dumpsL : J → List Char
  | .num n => intChars n
  | .null => ['n', 'u', 'l', 'l']
  | .str s => '"' :: escL s.data ++ ['"']
  | .bool true => ['t', 'r', 'u', 'e']
  | .arr [] => ['[', ']']
  | .bool false => ['f', 'a', 'l', 's', 'e']
  | .arr (x :: xs) => '[' :: (dumpsL x ++ dumpsElems xs ++ [']'])
  | .obj [] => [lbrace, rbrace]
  | .obj (p :: ps) => lbrace :: (dumpsMember p ++ dumpsMembers ps ++ [rbrace])

def dumpsMember : String × J → List Char
  | (k, v) => '"' :: escL k.data ++ ['"', ':', ' '] ++ dumpsL v

def dumpsElems : List J → List Char
  | [] => []
  | x :: xs => ',' :: ' ' :: (dumpsL x ++ dumpsElems xs)

def dumpsMembers : List (String × J) → List Char
  | [] => []
  | p :: ps => ',' :: ' ' :: (dumpsMember p ++ dumpsMembers ps)

end

def dumpsStr (v : J) : String := String.mk (dumpsL v)

/-! ### Well-formedness: every object has pairwise-distinct keys.
Values built by Python's `json.loads` (real dicts) always satisfy this. -/

def nodupKeys : List (String × J) → Bool
  | [] => true
  | p :: ps => !(hasKeyL ps p.1) && nodupKeys ps

mutual

def wfJ : J → Bool
  | .null => true
  | .bool _ => true
  | .num _ => true
  | .str _ => true
  | .arr l => wfL l
  | .obj kvs => nodupKeys kvs && wfM kvs

def wfL : List J → Bool
  | [] => true
  | x :: xs => wfJ x && wfL xs

def wfM : List (String × J) → Bool
  | [] => true
  | p :: ps => wfJ p.2 && wfM ps

end

/-! ### POSIX path model
Kernel-computable models of `os.path.isabs`, `os.path.join`,
`os.path.normpath` and `os.path.abspath` (posixpath semantics, as used by
the source on its target platform). -/

def isabs (p : String) : Bool :=
  match p.data with
  | c :: _ => c = '/'
  | [] => false

def endsWithSlash (p : String) : Bool :=
  match p.data.getLast? with
  | some c => c = '/'
  | none => false

/-- `posixpath.join(a, b)` (two arguments). -/
def pjoin (a b : String) : String :=
  if isabs b then b
  else if a.data.isEmpty || endsWithSlash a then String.mk (a.data ++ b.data)
  else String.mk (a.data ++ '/' :: b.data)

/-- `str.split('/')`. -/
def splitSlash : List Char → List (List Char)
  | [] => [[]]
  | c :: cs =>
    let r := splitSlash cs
    if c = '/' then [] :: r
    else
      match r with
      | h :: t => (c :: h) :: t
      | [] => [[c]]

/-- One step of `posixpath.normpath`'s component loop. -/
def normStep (initialSlashes : Nat) (acc : List (List Char)) (comp : List Char) :
    List (List Char) :=
  if comp = [] ∨ comp = ['.'] then acc
  else if comp ≠ ['.', '.'] ∨ (initialSlashes = 0 ∧ acc = []) ∨
          (acc.getLast? = some ['.', '.']) then acc ++ [comp]
  else if acc.isEmpty then acc
  else acc.dropLast

def joinSlash : List (List Char) → List Char
  | [] => []
  | [x] => x
  | x :: xs => x ++ '/' :: joinSlash xs

/-- `posixpath.normpath`. -/
def normpath (p : String) : String :=
  if p.data.isEmpty then "."
  else
    let initialSlashes : Nat :=
      match p.data with
      | '/' :: '/' :: '/' :: _ => 1
      | '/' :: '/' :: _ => 2
      | '/' :: _ => 1
      | _ => 0
    let comps := splitSlash p.data
    let newComps := comps.foldl (normStep initialSlashes) []
    let res := List.replicate initialSlashes '/' ++ joinSlash newComps
    if res.isEmpty then "." else String.mk res

/-- `posixpath.abspath`. -/
def abspath (cwd p : String) : String :=
  normpath (if isabs p then p else pjoin cwd p)

def listPfx : List Char → List Char → Bool
  | [], _ => true
  | _ :: _, [] => false
  | a :: as, b :: bs => a = b && listPfx as bs

/-- `s.startswith(p)` (kernel-computable). -/
def startsWithStr (s p : String) : Bool := listPfx p.data s.data

/-! ### `int(...)` and the request budget -/

/-- Python `int(str)`: optional surrounding whitespace, optional sign,
then decimal digits (leading zeros allowed). -/
def pyIntOfChars (cs0 : List Char) : Option Int :=
  let cs1 := cs0.dropWhile isWs
  let cs := (cs1.reverse.dropWhile isWs).reverse
  match cs with
  | '-' :: ds => if !ds.isEmpty && ds.all isDig then some (-(digitsToNat ds : Int)) else none
  | '+' :: ds => if !ds.isEmpty && ds.all isDig then some (digitsToNat ds : Int) else none
  | ds => if !ds.isEmpty && ds.all isDig then some (digitsToNat ds : Int) else none

/-- Python `int(x)` on a JSON value (floats are not modelled). -/
def pyInt : J → Option Int
  | .num n => some n
  | .bool b => some (if b then 1 else 0)
  | .str s => pyIntOfChars s.data
  | _ => none

/-- Lines 641-647: the request budget from `config['conexão']['limite_passos']`,
defaulting to 1 on absence or on any conversion error. -/
def mkMaxRequests (config : J) : Int :=
  match jGet config "conexão" with
  | some conn =>
    match jGet conn "limite_passos" with
    | some v => (pyInt v).getD 1
    | none => 1
  | none => 1

/-! ### Brace-extraction heuristic (`r.find('{')` / `r.rfind('}')`) -/

def idxOf (c : Char) : List Char → Option Nat
  | [] => none
  | x :: xs => if x = c then some 0 else (idxOf c xs).map (· + 1)

def lastIdxOf (c : Char) (cs : List Char) : Option Nat :=
  (idxOf c cs.reverse).map (fun i => cs.length - 1 - i)

/-- The candidate substring between the first opening brace and the last
closing brace (inclusive), provided the first strictly precedes the last;
mirrors `s_index >= 0 and e_index > s_index` with `r[s_index:e_index+1]`. -/
def braceSlice (cs : List Char) : Option (List Char) :=
  match idxOf lbrace cs, lastIdxOf rbrace cs with
  | some si, some ei => if si < ei then some ((cs.drop si).take (ei - si + 1)) else none
  | _, _ => none

/-! ### `ensure_structured_response` (lines 378-450) -/

def ensureMemory (kvs : List (String × J)) : List (String × J) :=
  if hasKeyL kvs "memory" then kvs else kvs ++ [("memory", .obj [])]

def fallbackRawText (s : String) : J :=
  .obj [("status", .str "ok"), ("plan", .arr []), ("action", .null),
        ("memory", .obj [("raw_text", .str s)])]

def rawParsedWrap (v : J) : J :=
  .obj [("status", .str "ok"), ("plan", .arr []), ("action", .null),
        ("memory", .obj [("raw_parsed", v)])]

/-- Lines 401-409: pull the textual content out of `choices[0]`. -/
def choicesContent (choice0 : J) : Option J :=
  match choice0 with
  | .obj ckvs =>
    let tryText : Option J :=
      if hasKeyL ckvs "text" then
        match lookupL ckvs "text" with
        | some .null => none
        | some v => some v
        | none => none
      else none
    match lookupL ckvs "message" with
    | some (.obj mkvs) =>
      if hasKeyL mkvs "content" then
        match lookupL mkvs "content" with
        | some .null => none
        | some v => some v
        | none => none
      else tryText
    | some _ => tryText
    | none => tryText
  | _ => none

/-- Line 413: normalize the extracted content to text. -/
def contentTextOf (content : J) : J :=
  match content with
  | .str _ => content
  | .obj kvs =>
    if hasKeyL kvs "content" then (lookupL kvs "content").getD .null
    else .str (dumpsStr content)
  | _ => .str (dumpsStr content)

/-- `ensure_structured_response(r)`.  `.error` models the `RuntimeError`
raised on an absent reply; every other input yields a value. -/
def ensureStructured (r : J) : Except String J :=
  match r with
  | .null => .error "Resposta vazia do modelo."
  | .str s =>
    match loads s with
    | some v => .ok v
    | none =>
      match braceSlice s.data with
      | some cand =>
        match loadsL cand with
        | some v => .ok v
        | none => .ok (fallbackRawText s)
      | none => .ok (fallbackRawText s)
  | .obj kvs =>
    match lookupL kvs "choices" with
    | some (.arr (choice0 :: _)) =>
      match choicesContent choice0 with
      | some content =>
        match contentTextOf content with
        | .str ct =>
          match loads ct with
          | some (.obj pkvs) => .ok (.obj (ensureMemory pkvs))
          | some v => .ok (rawParsedWrap v)
          | none =>
            match braceSlice ct.data with
            | some cand =>
              match loadsL cand with
              | some (.obj p2) => .ok (.obj (ensureMemory p2))
              | _ => .ok (fallbackRawText ct)
            | none => .ok (fallbackRawText ct)
        | _ => .ok (.obj (ensureMemory kvs))
      | none => .ok (.obj (ensureMemory kvs))
    | _ => .ok (.obj (ensureMemory kvs))
  | other =>
    match loads (dumpsStr other) with
    | some v => .ok v
    | none => .ok (.obj [("status", .str "ok"), ("plan", .arr []),
                         ("action", .null), ("memory", .obj [])])

/-! ### Run context and the sandbox resolver -/

/-- Immutable context of a run.  The prose constants (orchestrator
instructions, canned `request` string) are opaque: no claim depends on their
content.  `oracle i` is the outcome of the `i`-th in-loop
`invoke_model_with_retries` call: the returned raw value, or `none` when the
call raised after exhausting retries.  `fsExists`/`fsRead` abstract the
filesystem (`fsRead` returns the base64 encoding `read_file_base64` would
produce). -/
structure Env where
  maxRequests : Int
  isGenerateContent : Bool
  oracle : Nat → Option J
  config : J
  configDir : String
  allowedRoot : String
  allowedRootFromAbsolute : Bool
  cwd : String
  fsExists : String → Bool
  fsRead : String → String
  fileTree : J
  promptText : String
  orchestratorText : String
  requestText : String

/-- Lines 676-680: reconstruct the requested path against the applicable
base (the allowed root when it was declared absolute, else the config dir). -/
def requestedPath (env : Env) (p : String) : String :=
  if isabs p then p
  else pjoin (if env.allowedRootFromAbsolute then env.allowedRoot else env.configDir) p

/-- Lines 681-693: existence check, canonicalization by `os.path.abspath`,
containment by string prefix, then `read_file_base64`.  The result is the
attachment value (`none` = JSON `null`). -/
def resolveAndFetch (env : Env) (p : String) : Option String :=
  let fpath := requestedPath env p
  if env.fsExists fpath then
    let resolved := abspath env.cwd fpath
    let allowedResolved := abspath env.cwd env.allowedRoot
    if startsWithStr resolved allowedResolved then
      if env.fsExists resolved then some (env.fsRead resolved) else none
    else none
  else none

/-- Lines 664-693: the whole `leia_arquivo` arm.  `.error` are the uncaught
exceptions the Python code can raise there (missing/falsy path parameter,
attribute/type errors on ill-typed parameters). -/
def leiaArquivoAttach (env : Env) (action : J) : Except String J :=
  let params := (jGet action "parameters").getD .null
  let actionPath := (jGet action "path").getD .null
  let pathParamE : Except String J :=
    if truthy params then
      match params with
      | .obj pkvs =>
        let pv := (lookupL pkvs "path").getD .null
        if truthy pv then .ok pv
        else .ok (if truthy actionPath then actionPath else .null)
      | _ => .error "AttributeError: parameters.get"
    else .ok (if truthy actionPath then actionPath else .null)
  match pathParamE with
  | .error e => .error e
  | .ok pathParam =>
    if truthy pathParam then
      match pathParam with
      | .str p =>
        .ok (.obj [(p, match resolveAndFetch env p with
                       | some b64 => .str b64
                       | none => .null)])
      | _ => .error "TypeError: isabs"
    else .error "Parâmetro path obrigatório para leia_arquivo."

/-! ### The `finalizar` arm (lines 695-722) -/

inductive Event where
  | modelCall (payload : J)
  | fileWrite (path : String) (content : String)
deriving DecidableEq

/-- Lines 695-720: content selection by truthiness-based precedence
(`content`, then `html`, then `html_content`), save-path selection
(`parameters.path`, else `config['relatório']`), and the write.  `.error`
are the uncaught exceptions of ill-typed parameters. -/
def finalizarProcess (env : Env) (action : J) : Except String (List Event) :=
  let params0 := (jGet action "parameters").getD .null
  let params := if truthy params0 then params0 else .obj []
  match params with
  | .obj pkvs =>
    let pcontent := (lookupL pkvs "content").getD .null
    let phtml := (lookupL pkvs "html").getD .null
    let phtmlc := (lookupL pkvs "html_content").getD .null
    let htmlContent : J :=
      if truthy pcontent then pcontent
      else if truthy phtml then phtml
      else if truthy phtmlc then phtmlc
      else .null
    if truthy htmlContent then
      let ppath := (lookupL pkvs "path").getD .null
      let outPathE : Except String (Option String) :=
        if truthy ppath then
          match ppath with
          | .str ps => .ok (some (if isabs ps then ps else pjoin env.configDir ps))
          | _ => .error "TypeError: isabs"
        else
          let rel := (jGet env.config "relatório").getD .null
          if truthy rel then
            match rel with
            | .str ns => .ok (some (if isabs ns then ns else pjoin env.configDir ns))
            | _ => .error "TypeError: isabs"
          else .ok none
      match outPathE with
      | .error e => .error e
      | .ok (some outPath) =>
        match htmlContent with
        | .str h => .ok [.fileWrite outPath h]
        | _ => .error "TypeError: write"
      | .ok none => .ok []
    else .ok []
  | _ => .error "AttributeError: params.get"

/-! ### The step loop (lines 654-807) -/

structure LoopState where
  response : J
  memory : J
  totalSteps : Nat
  requestsMade : Nat
  callIdx : Nat
  done : Bool
deriving DecidableEq

inductive StepRes where
  | next (s : LoopState) (evs : List Event)
  | exited (s : LoopState) (evs : List Event)
  | crashed (msg : String) (evs : List Event)
deriving DecidableEq

/-- Line 656: the single action of the current response. -/
def actionOf (resp : J) : J :=
  match resp with
  | .obj kvs => (lookupL kvs "action").getD .null
  | _ => .null

/-- Lines 734/778: `response.get('plan') if response else None`;
`.error` is the `AttributeError` on a truthy non-dict response. -/
def planOf (resp : J) : Except String J :=
  if truthy resp then
    match resp with
    | .obj kvs => .ok ((lookupL kvs "plan").getD .null)
    | _ => .error "AttributeError: plan"
  else .ok .null

/-- Lines 762-764 / the orchestrator's synthetic turn-level error reply. -/
def syntheticError (memory : J) : J :=
  .obj [("status", .str "error"), ("plan", .arr []), ("action", .null), ("memory", memory)]

/-- Lines 744-746 / 788-790: Google-style wrapping of an outgoing payload. -/
def wrapGen (isGen : Bool) (payload : J) : J :=
  if isGen then
    .obj [("contents", .arr [.obj [("parts", .arr [.obj [("text", .str (dumpsStr payload))]])]])]
  else payload

/-- Lines 726-741: the action-executed update payload. -/
def updatePayload (env : Env) (s : LoopState) (ts1 : Nat) (action attachments planVal : J) : J :=
  .obj [("update", .str "action_executed"), ("executed_action", action),
        ("attachments", attachments), ("memory", s.memory), ("totalSteps", .num (ts1 : Int)),
        ("file_tree", env.fileTree), ("prompt", .str env.promptText),
        ("orchestrator", .str env.orchestratorText), ("request", .str env.requestText),
        ("config", env.config), ("plan", planVal)]

/-- Lines 776-785: the next-steps payload.  The dict updates reuse Python's
in-place assignment, so the second `request` assignment replaces the first
key in place. -/
def askPayload (env : Env) (s : LoopState) (planVal : J) : J :=
  let base : J := .obj [("request", .str "next_steps"), ("memory", s.memory),
                        ("max_steps", .num (max 0 (env.maxRequests - (s.requestsMade : Int))))]
  let a1 := objInsert base "file_tree" env.fileTree
  let a2 := objInsert a1 "prompt" (.str env.promptText)
  let a3 := objInsert a2 "orchestrator" (.str env.orchestratorText)
  let a4 := objInsert a3 "request" (.str env.requestText)
  let a5 := objInsert a4 "config" env.config
  objInsert a5 "plan" planVal

/-- Lines 805-807: the hard step ceiling, checked at the end of an
iteration. -/
def afterCheck (s : LoopState) (evs : List Event) : StepRes :=
  if s.totalSteps > 1000 then .exited s evs else .next s evs

/-- Lines 726-764: send the action-executed update (budget-guarded), absorb
any failure into a synthetic error response. -/
def doUpdate (env : Env) (s : LoopState) (ts1 : Nat) (action attachments : J) : StepRes :=
  match planOf s.response with
  | .error _ =>
    afterCheck { s with totalSteps := ts1, response := syntheticError s.memory } []
  | .ok planVal =>
    let payload := wrapGen env.isGenerateContent (updatePayload env s ts1 action attachments planVal)
    if env.maxRequests ≤ (s.requestsMade : Int) then
      .exited { s with totalSteps := ts1, done := true } []
    else
      match env.oracle s.callIdx with
      | none =>
        afterCheck { s with totalSteps := ts1, callIdx := s.callIdx + 1,
                            response := syntheticError s.memory } [.modelCall payload]
      | some raw =>
        let s1 := { s with totalSteps := ts1, callIdx := s.callIdx + 1,
                           requestsMade := s.requestsMade + 1 }
        match ensureStructured raw with
        | .error _ =>
          afterCheck { s1 with response := syntheticError s.memory } [.modelCall payload]
        | .ok resp2 =>
          match resp2 with
          | .obj rkvs =>
            afterCheck { s1 with response := resp2,
                                 memory := (lookupL rkvs "memory").getD (.obj []) }
              [.modelCall payload]
          | _ =>
            afterCheck { s1 with response := syntheticError s.memory } [.modelCall payload]

/-- Lines 769-803: request next steps (budget-guarded); any failure breaks
out of the loop. -/
def doAsk (env : Env) (s : LoopState) : StepRes :=
  if env.maxRequests ≤ (s.requestsMade : Int) then
    .exited s []
  else
    match planOf s.response with
    | .error _ => .exited s []
    | .ok planVal =>
      let payload := wrapGen env.isGenerateContent (askPayload env s planVal)
      match env.oracle s.callIdx with
      | none => .exited { s with callIdx := s.callIdx + 1 } [.modelCall payload]
      | some raw =>
        let s1 := { s with callIdx := s.callIdx + 1, requestsMade := s.requestsMade + 1 }
        match ensureStructured raw with
        | .error _ => .exited s1 [.modelCall payload]
        | .ok resp2 =>
          match resp2 with
          | .obj rkvs =>
            afterCheck { s1 with response := resp2,
                                 memory := (lookupL rkvs "memory").getD (.obj []),
                                 done := (lookupL rkvs "status" == some (J.str "done")) }
              [.modelCall payload]
          | _ => .exited s1 [.modelCall payload]

/-- One iteration of the `while not done` loop (lines 654-807). -/
def step (env : Env) (s : LoopState) : StepRes :=
  let action := actionOf s.response
  if truthy action then
    let ts1 := s.totalSteps + 1
    match action with
    | .obj akvs =>
      let typ := (lookupL akvs "type").getD .null
      if typ == J.str "leia_arquivo" then
        match leiaArquivoAttach env action with
        | .error m => .crashed m []
        | .ok attachments => doUpdate env s ts1 action attachments
      else if typ == J.str "finalizar" then
        match finalizarProcess env action with
        | .error m => .crashed m []
        | .ok evs => .exited { s with totalSteps := ts1, done := true } evs
      else
        doUpdate env s ts1 action (.obj [])
    | _ => .crashed "AttributeError: action.get" []
  else
    doAsk env s

inductive Outcome where
  | finished
  | fuelOut
  | crashed (msg : String)
deriving DecidableEq

structure RunResult where
  state : LoopState
  events : List Event
  outcome : Outcome
deriving DecidableEq

/-- The `while not done` loop, fueled. -/
def runLoop (env : Env) : Nat → LoopState → RunResult
  | 0, s => ⟨s, [], .fuelOut⟩
  | fuel + 1, s =>
    if s.done then ⟨s, [], .finished⟩
    else
      match step env s with
      | .next s2 evs =>
        let r := runLoop env fuel s2
        ⟨r.state, evs ++ r.events, r.outcome⟩
      | .exited s2 evs => ⟨s2, evs, .finished⟩
      | .crashed msg evs => ⟨s, evs, .crashed msg⟩

/-! ### The pre-loop phase and `invoke_model_with_retries` -/

/-- Lines 591-598 together with the guard of line 592: extract
`candidates[0].content.parts[0].text`; any failure yields `none` (the
surrounding `try` absorbs it). -/
def extractCandText (raw : J) : Option J :=
  if truthy raw then
    match raw with
    | .obj rkvs =>
      match lookupL rkvs "candidates" with
      | some (.arr (c0 :: _)) =>
        match jGet c0 "content" with
        | some co =>
          match jGet co "parts" with
          | some (.arr (p0 :: _)) => jGet p0 "text"
          | _ => none
        | _ => none
      | _ => none
    | _ => none
  else none

/-- One attempt's success test inside `invoke_model_with_retries`
(lines 352-368): for the generate-content vendor the candidate text must be
present and truthy; otherwise any non-`None` reply is accepted. -/
def attemptSuccess (isGen : Bool) (rawAttempt : Option J) : Option J :=
  match rawAttempt with
  | none => none
  | some r =>
    if isGen then
      match extractCandText r with
      | some t => if truthy t then some t else none
      | none => none
    else some r

structure InvokeResult where
  result : Option J
  attemptsMade : Nat
  sleeps : List Nat
deriving DecidableEq

/-- The retry loop of `invoke_model_with_retries`: `attemptNo` is the
1-based attempt number, `remaining` the attempts still allowed.  A `none`
result models the `RuntimeError` raised after exhaustion; `sleeps` records
the `time.sleep(2 * attempt)` backoffs performed. -/
def invokeAux (attempts : Nat → Option J) (isGen : Bool) : Nat → Nat → InvokeResult
  | _, 0 => ⟨none, 0, []⟩
  | n, rem + 1 =>
    match attemptSuccess isGen (attempts n) with
    | some v => ⟨some v, 1, []⟩
    | none =>
      match rem with
      | 0 => ⟨none, 1, []⟩
      | _ + 1 =>
        let r := invokeAux attempts isGen (n + 1) rem
        ⟨r.result, r.attemptsMade + 1, (2 * n) :: r.sleeps⟩

/-- Lines 344-375: `invoke_model_with_retries(cfg, payload, is_generate_content, max_retries)`. -/
def invokeModelWithRetries (attempts : Nat → Option J) (isGen : Bool) (maxRetries : Nat) :
    InvokeResult :=
  invokeAux attempts isGen 1 maxRetries

/-- Lines 586-619: the generate-content initial branch.  `.error` is the
path where a truthy non-string candidate text makes `json.loads` raise a
`TypeError` and the recovery code raise an `AttributeError`, which
propagates to the outer handler (and hence to `sys.exit(1)`). -/
def genExtractInitial (raw : J) : Except Unit J :=
  match extractCandText raw with
  | some t =>
    if truthy t then
      match t with
      | .str ts =>
        match loads ts with
        | some parsed => .ok parsed
        | none =>
          match braceSlice ts.data with
          | some cand =>
            match loadsL cand with
            | some parsed2 => .ok parsed2
            | none => .ok (fallbackRawText ts)
          | none => .ok (fallbackRawText ts)
      | _ => .error ()
    else .ok raw
  | none => .ok raw

inductive MaestroResult where
  | exitFailure
  | crashedInit (msg : String)
  | ran (r : RunResult)
deriving DecidableEq

/-- Lines 582-807: the whole run after configuration loading.  `initCall`
is the outcome of the single, unwrapped initial `invoke_model` call
(`none` = any transport exception, which line 624 turns into
`sys.exit(1)`).  The loop starts with `total_steps = 0` and
`requests_made = 1` (line 650: the initial call is already counted). -/
def runMaestro (env : Env) (initCall : Option J) (fuel : Nat) : MaestroResult :=
  match initCall with
  | none => .exitFailure
  | some raw =>
    match (if env.isGenerateContent then genExtractInitial raw else .ok raw) with
    | .error _ => .exitFailure
    | .ok resp =>
      match ensureStructured resp with
      | .error msg => .crashedInit msg
      | .ok response =>
        match response with
        | .obj rkvs =>
          .ran (runLoop env fuel
            { response := response, memory := (lookupL rkvs "memory").getD (.obj []),
              totalSteps := 0, requestsMade := 1, callIdx := 0, done := false })
        | _ => .crashedInit "AttributeError: memory"

/-! ### Spec-side notion of directory containment (for claim C1).
The specification's words: the resolved path lies *inside* the allowed-root
directory.  This is the comparison point for the code's string-prefix test. -/

def specInsideDir (root p : String) : Bool :=
  p == root || listPfx (root.data ++ ['/']) p.data

/-! ### Round-trip: `loads (dumps v) = some v` for well-formed values.
First the fuel measure for the parser. -/

mutual

def jfuel : J → Nat
  | .null => 1
  | .bool _ => 1
  | .num _ => 1
  | .str _ => 1
  | .arr l => 1 + jfuelElems l
  | .obj kvs => 1 + jfuelMembers kvs

def jfuelElems : List J → Nat
  | [] => 0
  | x :: xs => 1 + jfuel x + jfuelElems xs

def jfuelMembers : List (String × J) → Nat
  | [] => 0
  | p :: ps => 1 + jfuel p.2 + jfuelMembers ps

end

/-! Digit-level lemmas. -/

theorem digChar_toNat {d : Nat} (h : d < 10) : (digChar d).toNat = 48 + d := by
  interval_cases d <;> decide

theorem isDig_digChar {d : Nat} (h : d < 10) : isDig (digChar d) = true := by
  interval_cases d <;> decide

theorem natDigitsF_spec : ∀ (f n : Nat), n < f →
    (∀ c ∈ natDigitsF f n, isDig c = true) ∧ natDigitsF f n ≠ [] ∧
      digitsToNat (natDigitsF f n) = n
  | 0, n, h => by omega
  | f + 1, n, h => by
    by_cases h10 : n < 10
    · refine ⟨?_, ?_, ?_⟩
      · intro c hc
        simp [natDigitsF, h10] at hc
        subst hc
        exact isDig_digChar h10
      · simp [natDigitsF, h10]
      · simp [natDigitsF, h10, digitsToNat, digChar_toNat h10]
    · have hdiv : n / 10 < f := by
        have := Nat.div_lt_self (n := n) (by omega) (by omega : 1 < 10)
        omega
      obtain ⟨ihdig, ihne, ihval⟩ := natDigitsF_spec f (n / 10) hdiv
      refine ⟨?_, ?_, ?_⟩
      · intro c hc
        simp only [natDigitsF, if_neg h10, List.mem_append, List.mem_singleton] at hc
        rcases hc with hc | hc
        · exact ihdig c hc
        · subst hc
          exact isDig_digChar (by omega)
      · simp [natDigitsF, if_neg h10]
      · simp only [natDigitsF, if_neg h10, digitsToNat, List.foldl_append]
        have : (natDigitsF f (n / 10)).foldl (fun a c => a * 10 + (c.toNat - 48)) 0 = n / 10 :=
          ihval
        simp only [List.foldl_cons, List.foldl_nil, this, digChar_toNat (by omega : n % 10 < 10)]
        omega

theorem natChars_spec (n : Nat) :
    (∀ c ∈ natChars n, isDig c = true) ∧ natChars n ≠ [] ∧ digitsToNat (natChars n) = n :=
  natDigitsF_spec (n + 1) n (by omega)

/-- The leading digit of a positive numeral is not `'0'`. -/
theorem natDigitsF_head_ne_zero : ∀ (f n : Nat), n < f → 1 ≤ n →
    ∀ c cs, natDigitsF f n = c :: cs → c ≠ '0'
  | 0, n, h, _, _, _, _ => by omega
  | f + 1, n, h, h1, c, cs, heq => by
    by_cases h10 : n < 10
    · simp only [natDigitsF, if_pos h10] at heq
      cases heq
      intro hc
      have : (digChar n).toNat = 48 + n := digChar_toNat h10
      rw [hc] at this
      simp at this
      omega
    · have hdiv : n / 10 < f := by
        have := Nat.div_lt_self (n := n) (by omega) (by omega : 1 < 10)
        omega
      have h1' : 1 ≤ n / 10 := by
        have := Nat.div_le_div_right (c := 10) (by omega : 10 ≤ n)
        simpa using this
      simp only [natDigitsF, if_neg h10] at heq
      obtain ⟨_, hne, _⟩ := natDigitsF_spec f (n / 10) hdiv
      match h2 : natDigitsF f (n / 10), heq with
      | [], _ => exact absurd h2 hne
      | c2 :: cs2, heq2 =>
        rw [h2] at heq
        simp at heq
        exact heq.1 ▸ natDigitsF_head_ne_zero f (n / 10) hdiv h1' c2 cs2 h2

/-- `takeWhile`/`dropWhile` across an all-satisfying block followed by a
non-satisfying head. -/
theorem takeWhile_block {p : Char → Bool} : ∀ (l rest : List Char),
    (∀ c ∈ l, p c = true) → (∀ c, rest.head? = some c → p c = false) →
    (l ++ rest).takeWhile p = l ∧ (l ++ rest).dropWhile p = rest
  | [], rest, _, hrest => by
    constructor
    · cases rest with
      | nil => simp
      | cons r rs =>
        have := hrest r (by simp)
        simp [List.takeWhile, this]
    · cases rest with
      | nil => simp
      | cons r rs =>
        have := hrest r (by simp)
        simp [List.dropWhile, this]
  | c :: cs, rest, hall, hrest => by
    have hc : p c = true := hall c (by simp)
    have ih := takeWhile_block cs rest (fun c hc => hall c (by simp [hc])) hrest
    simp [List.takeWhile, List.dropWhile, hc, ih.1, ih.2]

/-- Boolean "the head is not a digit". -/
def headNotDig : List Char → Bool
  | [] => true
  | c :: _ => !isDig c

theorem parseUNum_natChars (n : Nat) (rest : List Char) (hrest : headNotDig rest = true) :
    parseUNum (natChars n ++ rest) = some (n, rest) := by
  obtain ⟨hdig, hne, hval⟩ := natChars_spec n
  have hrest' : ∀ c, rest.head? = some c → isDig c = false := by
    intro c hc
    cases rest with
    | nil => simp at hc
    | cons r rs =>
      simp at hc
      subst hc
      simpa [headNotDig] using hrest
  obtain ⟨htake, hdrop⟩ := takeWhile_block (natChars n) rest hdig hrest'
  match hcs : natChars n, hne with
  | c :: cs, _ =>
    rw [hcs] at htake hdrop hval hdig
    by_cases h0 : n = 0
    · subst h0
      have : natChars 0 = ['0'] := by decide
      rw [this] at hcs
      cases hcs
      simp [parseUNum]
    · have hcne : c ≠ '0' :=
        natDigitsF_head_ne_zero (n + 1) n (by omega) (by omega) c cs hcs
      have hcd : isDig c = true := hdig c (by simp)
      simp only [List.cons_append, parseUNum, if_neg hcne, hcd, if_pos rfl]
      rw [← List.cons_append, htake, hdrop, hval]
      simp

theorem intChars_all : ∀ (n : Int), intChars n ≠ [] := by
  intro n
  unfold intChars
  split
  · simp
  · exact (natChars_spec _).2.1

theorem parseNumber_intChars (n : Int) (rest : List Char) (hrest : headNotDig rest = true) :
    parseNumber (intChars n ++ rest) = some (.num n, rest) := by
  by_cases hneg : n < 0
  · simp only [intChars, if_pos hneg, List.cons_append, parseNumber,
      parseUNum_natChars n.natAbs rest hrest]
    have hn : (-(n.natAbs : Int)) = n := by omega
    rw [hn]
  · simp only [intChars, if_neg hneg]
    obtain ⟨hdig, hne, _⟩ := natChars_spec n.toNat
    match hcs : natChars n.toNat, hne with
    | c :: cs, _ =>
      have hcd : isDig c = true := by
        apply hdig
        rw [hcs]
        simp
      have hcm : c ≠ '-' := by
        intro hc
        rw [hc] at hcd
        simp [isDig] at hcd
      simp only [List.cons_append, parseNumber]
      have hres := parseUNum_natChars n.toNat rest hrest
      rw [hcs] at hres
      simp only [List.cons_append] at hres
      have hn : ((n.toNat : Int)) = n := Int.toNat_of_nonneg (by omega)
      split
      · rename_i cs2 heq
        have h1 : c = '-' := by
          have := congrArg List.head? heq
          simpa using this
        exact absurd h1 hcm
      · simp only [hres]
        simp [hn]

/-! String-escape round trip. -/

theorem hexVal_hexDigChar {d : Nat} (h : d < 16) : hexVal (hexDigChar d) = some d := by
  interval_cases d <;> decide

theorem parseStrBody_escL : ∀ (l : List Char) (acc rest : List Char),
    parseStrBody (escL l ++ '"' :: rest) acc = some (String.mk (acc ++ l), rest)
  | [], acc, rest => by
    simp only [escL, List.nil_append]
    rw [parseStrBody.eq_def]
    simp
  | c :: cs, acc, rest => by
    have ih := parseStrBody_escL cs (acc ++ [c]) rest
    by_cases hq : c = '"'
    · subst hq
      simp only [escL, escChar, List.cons_append, List.append_assoc, List.nil_append,
        if_pos rfl]
      rw [parseStrBody.eq_def]
      simpa [unescChar] using ih
    · by_cases hb : c = '\\'
      · subst hb
        simp only [escL, escChar, List.cons_append, List.append_assoc, List.nil_append]
        norm_num
        rw [parseStrBody.eq_def]
        simpa [unescChar] using ih
      · by_cases hn : c = '\n'
        · subst hn
          simp only [escL, escChar, List.cons_append, List.append_assoc, List.nil_append]
          norm_num
          rw [parseStrBody.eq_def]
          simpa [unescChar] using ih
        · by_cases hr : c = '\r'
          · subst hr
            simp only [escL, escChar, List.cons_append, List.append_assoc, List.nil_append]
            norm_num
            rw [parseStrBody.eq_def]
            simpa [unescChar] using ih
          · by_cases ht : c = '\t'
            · subst ht
              simp only [escL, escChar, List.cons_append, List.append_assoc, List.nil_append]
              norm_num
              rw [parseStrBody.eq_def]
              simpa [unescChar] using ih
            · by_cases h8 : c = Char.ofNat 8
              · subst h8
                simp only [escL, escChar, List.cons_append, List.append_assoc, List.nil_append]
                norm_num
                rw [parseStrBody.eq_def]
                simpa [unescChar] using ih
              · by_cases h12 : c = Char.ofNat 12
                · subst h12
                  simp only [escL, escChar, List.cons_append, List.append_assoc, List.nil_append]
                  norm_num
                  rw [parseStrBody.eq_def]
                  simpa [unescChar] using ih
                · by_cases h32 : c.toNat < 32
                  · have h16a : c.toNat / 16 < 16 := by omega
                    have h16b : c.toNat % 16 < 16 := by omega
                    have hchar : Char.ofNat (c.toNat / 16 * 16 + c.toNat % 16) = c := by
                      have harith : c.toNat / 16 * 16 + c.toNat % 16 = c.toNat := by omega
                      rw [harith, Char.ofNat_toNat]
                    simp only [escL, escChar, if_neg hq, if_neg hb, if_neg hn, if_neg hr,
                      if_neg ht, if_neg h8, if_neg h12, if_pos h32, List.cons_append,
                      List.append_assoc, List.nil_append]
                    rw [parseStrBody.eq_def]
                    simpa [hexVal_hexDigChar h16a, hexVal_hexDigChar h16b,
                      show hexVal '0' = some 0 from by decide, hchar] using ih
                  · simp only [escL, escChar, if_neg hq, if_neg hb, if_neg hn, if_neg hr,
                      if_neg ht, if_neg h8, if_neg h12, if_neg h32, List.cons_append,
                      List.append_assoc, List.nil_append]
                    rw [parseStrBody.eq_def]
                    simpa [hq, hb, h32] using ih

/-! Whitespace-invariance and head-character lemmas. -/

theorem skipWs_cons_of_ws {c : Char} {l : List Char} (h : isWs c = true) :
    skipWs (c :: l) = skipWs l := by
  simp [skipWs, h]

theorem skipWs_cons_of_not {c : Char} {l : List Char} (h : isWs c = false) :
    skipWs (c :: l) = c :: l := by
  simp [skipWs, h]

/-- Non-recursive presentation of one `parseVal` step (definitionally equal
to `parseVal (fuel + 1)` after whitespace skipping). -/
def pvCore (fuel : Nat) : List Char → Option (J × List Char)
  | [] => none
  | c :: rest =>
    if c = 'n' then
      match rest with
      | 'u' :: 'l' :: 'l' :: r => some (.null, r)
      | _ => none
    else if c = 't' then
      match rest with
      | 'r' :: 'u' :: 'e' :: r => some (.bool true, r)
      | _ => none
    else if c = 'f' then
      match rest with
      | 'a' :: 'l' :: 's' :: 'e' :: r => some (.bool false, r)
      | _ => none
    else if c = '"' then
      match parseStrBody rest [] with
      | some (s, r) => some (.str s, r)
      | none => none
    else if c = '[' then
      match skipWs rest with
      | c2 :: r2 => if c2 = ']' then some (.arr [], r2) else parseElems fuel rest []
      | [] => none
    else if c = lbrace then
      match skipWs rest with
      | c2 :: r2 => if c2 = rbrace then some (.obj [], r2) else parseMembers fuel rest []
      | [] => none
    else parseNumber (c :: rest)

/-- Non-recursive presentation of one `parseElems` step. -/
def peCore (fuel : Nat) (cs : List Char) (acc : List J) : Option (J × List Char) :=
  match parseVal fuel cs with
  | none => none
  | some (v, r) =>
    match skipWs r with
    | c :: r2 =>
      if c = ',' then parseElems fuel r2 (acc ++ [v])
      else if c = ']' then some (.arr (acc ++ [v]), r2)
      else none
    | [] => none

/-- Non-recursive presentation of one `parseMembers` step. -/
def pmCore (fuel : Nat) (cs : List Char) (acc : List (String × J)) : Option (J × List Char) :=
  match skipWs cs with
  | c :: r =>
    if c = '"' then
      match parseStrBody r [] with
      | none => none
      | some (k, r2) =>
        match skipWs r2 with
        | c2 :: r3 =>
          if c2 = ':' then
            match parseVal fuel r3 with
            | none => none
            | some (v, r4) =>
              match skipWs r4 with
              | c3 :: r5 =>
                if c3 = ',' then parseMembers fuel r5 (dictInsert acc k v)
                else if c3 = rbrace then some (.obj (dictInsert acc k v), r5)
                else none
              | [] => none
          else none
        | [] => none
    else none
  | [] => none

theorem parseVal_succ (g : Nat) (cs : List Char) :
    parseVal (g + 1) cs = pvCore g (skipWs cs) := rfl

theorem parseElems_succ (g : Nat) (cs : List Char) (acc : List J) :
    parseElems (g + 1) cs acc = peCore g cs acc := rfl

theorem parseMembers_succ (g : Nat) (cs : List Char) (acc : List (String × J)) :
    parseMembers (g + 1) cs acc = pmCore g cs acc := rfl

theorem parseVal_ws (f : Nat) (c : Char) (l : List Char) (h : isWs c = true) :
    parseVal f (c :: l) = parseVal f l := by
  cases f with
  | zero => rfl
  | succ g => rw [parseVal_succ, parseVal_succ, skipWs_cons_of_ws h]

theorem parseElems_ws (f : Nat) (c : Char) (l : List Char) (acc : List J) (h : isWs c = true) :
    parseElems f (c :: l) acc = parseElems f l acc := by
  cases f with
  | zero => rfl
  | succ g =>
    rw [parseElems_succ, parseElems_succ]
    unfold peCore
    rw [parseVal_ws g c l h]

theorem parseMembers_ws (f : Nat) (c : Char) (l : List Char) (acc : List (String × J))
    (h : isWs c = true) :
    parseMembers f (c :: l) acc = parseMembers f l acc := by
  cases f with
  | zero => rfl
  | succ g =>
    rw [parseMembers_succ, parseMembers_succ]
    unfold pmCore
    rw [skipWs_cons_of_ws h]

theorem digChar_facts {d : Nat} (h : d < 10) :
    digChar d ≠ 'n' ∧ digChar d ≠ 't' ∧ digChar d ≠ 'f' ∧ digChar d ≠ '"' ∧
    digChar d ≠ '[' ∧ digChar d ≠ lbrace ∧ isWs (digChar d) = false ∧
    digChar d ≠ ']' ∧ digChar d ≠ rbrace := by
  interval_cases d <;> exact (by decide)

theorem natDigitsF_head : ∀ (f n : Nat), n < f →
    ∃ d cs, d < 10 ∧ natDigitsF f n = digChar d :: cs
  | 0, n, h => by omega
  | f + 1, n, h => by
    by_cases h10 : n < 10
    · exact ⟨n, [], h10, by simp [natDigitsF, h10]⟩
    · have hdiv : n / 10 < f := by
        have := Nat.div_lt_self (n := n) (by omega) (by omega : 1 < 10)
        omega
      obtain ⟨d, cs, hd, heq⟩ := natDigitsF_head f (n / 10) hdiv
      exact ⟨d, cs ++ [digChar (n % 10)], hd, by simp [natDigitsF, h10, heq]⟩

theorem intChars_head (n : Int) :
    (∃ cs, intChars n = '-' :: cs) ∨ (∃ d cs, d < 10 ∧ intChars n = digChar d :: cs) := by
  by_cases hneg : n < 0
  · exact Or.inl ⟨natChars n.natAbs, by simp [intChars, hneg]⟩
  · obtain ⟨d, cs, hd, heq⟩ := natDigitsF_head (n.toNat + 1) n.toNat (by omega)
    exact Or.inr ⟨d, cs, hd, by simp [intChars, hneg]; exact heq⟩

/-- Every serialized value starts with a non-whitespace character distinct
from the closers `']'` and the closing brace. -/
theorem dumpsL_head (v : J) :
    ∃ c cs, dumpsL v = c :: cs ∧ isWs c = false ∧ c ≠ ']' ∧ c ≠ rbrace := by
  have hgood : ∀ c : Char, c ∈ ['n', 't', 'f', '-', '"', '[', lbrace] →
      isWs c = false ∧ c ≠ ']' ∧ c ≠ rbrace := by decide
  cases v with
  | num n =>
    rcases intChars_head n with ⟨cs, heq⟩ | ⟨d, cs, hd, heq⟩
    · exact ⟨'-', cs, by simp [dumpsL, heq], hgood _ (by decide)⟩
    · obtain ⟨_, _, _, _, _, _, hws, hrb, hrb2⟩ := digChar_facts hd
      exact ⟨digChar d, cs, by simp [dumpsL, heq], hws, hrb, hrb2⟩
  | null => exact ⟨'n', _, rfl, hgood _ (by decide)⟩
  | str s => exact ⟨'"', _, rfl, hgood _ (by decide)⟩
  | bool b => cases b
              · exact ⟨'f', _, rfl, hgood _ (by decide)⟩
              · exact ⟨'t', _, rfl, hgood _ (by decide)⟩
  | arr l => cases l
             · exact ⟨'[', _, rfl, hgood _ (by decide)⟩
             · exact ⟨'[', _, rfl, hgood _ (by decide)⟩
  | obj kvs => cases kvs
               · exact ⟨lbrace, _, rfl, hgood _ (by decide)⟩
               · exact ⟨lbrace, _, rfl, hgood _ (by decide)⟩

/-! Association-list helper lemmas. -/

theorem hasKeyL_append (a b : List (String × J)) (k : String) :
    hasKeyL (a ++ b) k = (hasKeyL a k || hasKeyL b k) := by
  simp [hasKeyL, List.any_append]

theorem hasKeyL_false_mem {l : List (String × J)} {k : String} (h : hasKeyL l k = false)
    {p : String × J} (hp : p ∈ l) : p.1 ≠ k := by
  intro hk
  have : hasKeyL l k = true := by
    simp only [hasKeyL, List.any_eq_true]
    exact ⟨p, hp, by simp [hk]⟩
  rw [this] at h
  exact absurd h (by simp)

theorem dictInsert_append {kvs : List (String × J)} {k : String} (v : J)
    (h : hasKeyL kvs k = false) : dictInsert kvs k v = kvs ++ [(k, v)] := by
  induction kvs with
  | nil => simp [dictInsert]
  | cons p ps ih =>
    simp [hasKeyL] at h
    obtain ⟨h1, h2⟩ := h
    simp [dictInsert, h1, ih (by simpa [hasKeyL] using h2)]

/-! The serializer/parser round trip, by mutual structural induction on the
value.  Well-formedness (no duplicate keys) makes the parser's dict
insertions plain appends. -/

mutual

theorem parseVal_dumps : ∀ (v : J), wfJ v = true → ∀ (rest : List Char) (fuel : Nat),
    jfuel v ≤ fuel → headNotDig rest = true →
    parseVal fuel (dumpsL v ++ rest) = some (v, rest)
  | .null, _, rest, fuel, hf, _ => by
    have h1 : (1 : Nat) ≤ fuel := by simpa [jfuel] using hf
    obtain ⟨f, rfl⟩ : ∃ f, fuel = f + 1 := ⟨fuel - 1, by omega⟩
    rw [parseVal_succ]
    simp only [dumpsL, List.cons_append, List.nil_append]
    rw [skipWs_cons_of_not (by decide)]
    simp [pvCore]
  | .bool true, _, rest, fuel, hf, _ => by
    have h1 : (1 : Nat) ≤ fuel := by simpa [jfuel] using hf
    obtain ⟨f, rfl⟩ : ∃ f, fuel = f + 1 := ⟨fuel - 1, by omega⟩
    rw [parseVal_succ]
    simp only [dumpsL, List.cons_append, List.nil_append]
    rw [skipWs_cons_of_not (by decide)]
    simp [pvCore]
  | .bool false, _, rest, fuel, hf, _ => by
    have h1 : (1 : Nat) ≤ fuel := by simpa [jfuel] using hf
    obtain ⟨f, rfl⟩ : ∃ f, fuel = f + 1 := ⟨fuel - 1, by omega⟩
    rw [parseVal_succ]
    simp only [dumpsL, List.cons_append, List.nil_append]
    rw [skipWs_cons_of_not (by decide)]
    simp [pvCore]
  | .num n, _, rest, fuel, hf, hrest => by
    have h1 : (1 : Nat) ≤ fuel := by simpa [jfuel] using hf
    obtain ⟨f, rfl⟩ : ∃ f, fuel = f + 1 := ⟨fuel - 1, by omega⟩
    rw [parseVal_succ]
    have hpn := parseNumber_intChars n rest hrest
    simp only [dumpsL] at hpn ⊢
    rcases intChars_head n with ⟨cs, heq⟩ | ⟨d, cs, hd, heq⟩
    · rw [heq] at hpn ⊢
      simp only [List.cons_append]
      rw [skipWs_cons_of_not (by decide)]
      simp only [pvCore, if_neg (by decide : ¬('-' = 'n')), if_neg (by decide : ¬('-' = 't')),
        if_neg (by decide : ¬('-' = 'f')), if_neg (by decide : ¬('-' = '"')),
        if_neg (by decide : ¬('-' = '[')), if_neg (by decide : ¬('-' = lbrace))]
      simpa using hpn
    · obtain ⟨hn, ht, hf2, hq, hbk, hlb, hws, _, _⟩ := digChar_facts hd
      rw [heq] at hpn ⊢
      simp only [List.cons_append]
      rw [skipWs_cons_of_not hws]
      simp only [pvCore, if_neg hn, if_neg ht, if_neg hf2, if_neg hq, if_neg hbk, if_neg hlb]
      simpa using hpn
  | .str s, _, rest, fuel, hf, _ => by
    have h1 : (1 : Nat) ≤ fuel := by simpa [jfuel] using hf
    obtain ⟨f, rfl⟩ : ∃ f, fuel = f + 1 := ⟨fuel - 1, by omega⟩
    rw [parseVal_succ]
    simp only [dumpsL, List.cons_append, List.append_assoc, List.singleton_append,
      List.nil_append]
    rw [skipWs_cons_of_not (by decide)]
    simp only [pvCore, if_neg (by decide : ¬('"' = 'n')), if_neg (by decide : ¬('"' = 't')),
      if_neg (by decide : ¬('"' = 'f')), eq_self_iff_true, if_true]
    rw [parseStrBody_escL s.data [] rest]
    simp
  | .arr [], _, rest, fuel, hf, _ => by
    have h1 : (1 : Nat) ≤ fuel := by simpa [jfuel, jfuelElems] using hf
    obtain ⟨f, rfl⟩ : ∃ f, fuel = f + 1 := ⟨fuel - 1, by omega⟩
    rw [parseVal_succ]
    simp only [dumpsL, List.cons_append, List.nil_append]
    rw [skipWs_cons_of_not (by decide)]
    simp only [pvCore, if_neg (by decide : ¬('[' = 'n')), if_neg (by decide : ¬('[' = 't')),
      if_neg (by decide : ¬('[' = 'f')), if_neg (by decide : ¬('[' = '"')),
      eq_self_iff_true, if_true]
    rw [skipWs_cons_of_not (by decide : isWs ']' = false)]
    simp
  | .arr (x :: xs), hwf, rest, fuel, hf, _ => by
    have hwx : wfJ x = true ∧ wfL xs = true := by
      simpa [wfJ, wfL, Bool.and_eq_true] using hwf
    have h1 : 1 + jfuelElems (x :: xs) ≤ fuel := by simpa [jfuel] using hf
    obtain ⟨f, rfl⟩ : ∃ f, fuel = f + 1 := ⟨fuel - 1, by omega⟩
    rw [parseVal_succ]
    simp only [dumpsL, List.cons_append, List.append_assoc, List.singleton_append,
      List.nil_append]
    rw [skipWs_cons_of_not (by decide)]
    simp only [pvCore, if_neg (by decide : ¬('[' = 'n')), if_neg (by decide : ¬('[' = 't')),
      if_neg (by decide : ¬('[' = 'f')), if_neg (by decide : ¬('[' = '"')),
      eq_self_iff_true, if_true]
    obtain ⟨c, cs, heq, hcws, hcrb, _⟩ := dumpsL_head x
    have hsk : skipWs (dumpsL x ++ (dumpsElems xs ++ (']' :: rest))) =
        c :: (cs ++ (dumpsElems xs ++ (']' :: rest))) := by
      rw [heq]
      simp only [List.cons_append]
      exact skipWs_cons_of_not hcws
    rw [hsk]
    simp only [if_neg hcrb]
    have hrec := parseElems_dumps x xs hwx.1 hwx.2 [] rest f (by omega)
    simpa using hrec
  | .obj [], _, rest, fuel, hf, _ => by
    have h1 : (1 : Nat) ≤ fuel := by simpa [jfuel, jfuelMembers] using hf
    obtain ⟨f, rfl⟩ : ∃ f, fuel = f + 1 := ⟨fuel - 1, by omega⟩
    rw [parseVal_succ]
    simp only [dumpsL, List.cons_append, List.nil_append]
    rw [skipWs_cons_of_not (by decide)]
    simp only [pvCore, if_neg (by decide : ¬(lbrace = 'n')),
      if_neg (by decide : ¬(lbrace = 't')), if_neg (by decide : ¬(lbrace = 'f')),
      if_neg (by decide : ¬(lbrace = '"')), if_neg (by decide : ¬(lbrace = '[')),
      eq_self_iff_true, if_true]
    rw [skipWs_cons_of_not (by decide : isWs rbrace = false)]
    simp
  | .obj ((k, v) :: ps), hwf, rest, fuel, hf, _ => by
    have hnd : nodupKeys ((k, v) :: ps) = true ∧ wfJ v = true ∧ wfM ps = true := by
      simp only [wfJ, wfM, Bool.and_eq_true] at hwf
      exact ⟨hwf.1, hwf.2.1, hwf.2.2⟩
    have h1 : 1 + jfuelMembers ((k, v) :: ps) ≤ fuel := by simpa [jfuel] using hf
    obtain ⟨f, rfl⟩ : ∃ f, fuel = f + 1 := ⟨fuel - 1, by omega⟩
    rw [parseVal_succ]
    simp only [dumpsL, List.cons_append, List.append_assoc, List.singleton_append,
      List.nil_append]
    rw [skipWs_cons_of_not (by decide)]
    simp only [pvCore, if_neg (by decide : ¬(lbrace = 'n')),
      if_neg (by decide : ¬(lbrace = 't')), if_neg (by decide : ¬(lbrace = 'f')),
      if_neg (by decide : ¬(lbrace = '"')), if_neg (by decide : ¬(lbrace = '[')),
      eq_self_iff_true, if_true]
    have hsk : skipWs (dumpsMember (k, v) ++ (dumpsMembers ps ++ rbrace :: rest)) =
        '"' :: (escL k.data ++ ('"' :: ':' :: ' ' ::
          (dumpsL v ++ (dumpsMembers ps ++ rbrace :: rest)))) := by
      simp only [dumpsMember, List.cons_append, List.append_assoc, List.singleton_append,
        List.nil_append]
      rw [skipWs_cons_of_not (by decide)]
    rw [hsk]
    simp only [if_neg (by decide : ¬('"' = rbrace))]
    have hrec := parseMembers_dumps k v ps hnd.2.1 hnd.2.2 hnd.1 [] rest f (by omega)
      (by intro q hq; simp [hasKeyL])
    simpa using hrec
termination_by v hw rest fuel hf hr => 2 * sizeOf v

theorem parseElems_dumps : ∀ (x : J) (xs : List J), wfJ x = true → wfL xs = true →
    ∀ (acc : List J) (rest : List Char) (fuel : Nat), jfuelElems (x :: xs) ≤ fuel →
    parseElems fuel (dumpsL x ++ (dumpsElems xs ++ (']' :: rest))) acc =
      some (.arr (acc ++ x :: xs), rest)
  | x, [], hwx, hwxs, acc, rest, fuel, hf => by
    have h1 : 1 + jfuel x + jfuelElems ([] : List J) ≤ fuel := by
      simpa [jfuelElems] using hf
    obtain ⟨f, rfl⟩ : ∃ f, fuel = f + 1 := ⟨fuel - 1, by omega⟩
    rw [parseElems_succ]
    have hndg : headNotDig (dumpsElems ([] : List J) ++ (']' :: rest)) = true := by
      simp [dumpsElems, headNotDig, isDig]
    have hx := parseVal_dumps x hwx (dumpsElems ([] : List J) ++ (']' :: rest)) f
      (by omega) hndg
    unfold peCore
    rw [hx]
    simp only [dumpsElems, List.nil_append]
    rw [skipWs_cons_of_not (by decide)]
    simp
  | x, y :: ys, hwx, hwxs, acc, rest, fuel, hf => by
    have h1 : 1 + jfuel x + jfuelElems (y :: ys) ≤ fuel := by
      simpa [jfuelElems] using hf
    obtain ⟨f, rfl⟩ : ∃ f, fuel = f + 1 := ⟨fuel - 1, by omega⟩
    rw [parseElems_succ]
    have hndg : headNotDig (dumpsElems (y :: ys) ++ (']' :: rest)) = true := by
      simp [dumpsElems, headNotDig, isDig]
    have hx := parseVal_dumps x hwx (dumpsElems (y :: ys) ++ (']' :: rest)) f
      (by omega) hndg
    unfold peCore
    rw [hx]
    have hwy : wfJ y = true ∧ wfL ys = true := by
      simpa [wfL, Bool.and_eq_true] using hwxs
    simp only [dumpsElems, List.cons_append]
    rw [skipWs_cons_of_not (by decide)]
    simp only [eq_self_iff_true, if_true]
    rw [parseElems_ws f ' ' _ _ (by decide)]
    have hrec := parseElems_dumps y ys hwy.1 hwy.2 (acc ++ [x]) rest f (by
      simp only [jfuelElems] at h1 ⊢
      omega)
    simpa [List.append_assoc] using hrec
termination_by x xs hwx hwxs acc rest fuel hf => 2 * (sizeOf x + sizeOf xs) + 1

theorem parseMembers_dumps : ∀ (k : String) (v : J) (ps : List (String × J)),
    wfJ v = true → wfM ps = true → nodupKeys ((k, v) :: ps) = true →
    ∀ (acc : List (String × J)) (rest : List Char) (fuel : Nat),
    jfuelMembers ((k, v) :: ps) ≤ fuel →
    (∀ q ∈ (k, v) :: ps, hasKeyL acc q.1 = false) →
    parseMembers fuel (dumpsMember (k, v) ++ (dumpsMembers ps ++ (rbrace :: rest))) acc =
      some (.obj (acc ++ (k, v) :: ps), rest)
  | k, v, [], hwv, hwps, hnd, acc, rest, fuel, hf, hacc => by
    have h1 : 1 + jfuel v + jfuelMembers ([] : List (String × J)) ≤ fuel := by
      simpa [jfuelMembers] using hf
    obtain ⟨f, rfl⟩ : ∃ f, fuel = f + 1 := ⟨fuel - 1, by omega⟩
    rw [parseMembers_succ]
    unfold pmCore
    have hsk : skipWs (dumpsMember (k, v) ++ (dumpsMembers ([] : List (String × J)) ++
        (rbrace :: rest))) =
        '"' :: (escL k.data ++ ('"' :: ':' :: ' ' ::
          (dumpsL v ++ (dumpsMembers ([] : List (String × J)) ++ rbrace :: rest)))) := by
      simp only [dumpsMember, List.cons_append, List.append_assoc, List.singleton_append,
        List.nil_append]
      rw [skipWs_cons_of_not (by decide)]
    rw [hsk]
    simp only [eq_self_iff_true, if_true]
    rw [show escL k.data ++ ('"' :: ':' :: ' ' ::
          (dumpsL v ++ (dumpsMembers ([] : List (String × J)) ++ rbrace :: rest))) =
        escL k.data ++ '"' :: (':' :: ' ' ::
          (dumpsL v ++ (dumpsMembers ([] : List (String × J)) ++ rbrace :: rest))) from rfl]
    rw [parseStrBody_escL k.data []]
    simp only [List.nil_append]
    rw [show String.mk k.data = k from rfl]
    rw [skipWs_cons_of_not (by decide : isWs ':' = false)]
    simp only [eq_self_iff_true, if_true]
    rw [parseVal_ws f ' ' _ (by decide)]
    have hndg : headNotDig (dumpsMembers ([] : List (String × J)) ++ (rbrace :: rest)) = true := by
      simp [dumpsMembers, headNotDig, isDig, rbrace]
    have hv := parseVal_dumps v hwv
      (dumpsMembers ([] : List (String × J)) ++ (rbrace :: rest)) f (by omega) hndg
    rw [hv]
    have hins : dictInsert acc k v = acc ++ [(k, v)] :=
      dictInsert_append v (hacc (k, v) (by simp))
    simp only [dumpsMembers, List.nil_append]
    rw [skipWs_cons_of_not (by decide : isWs rbrace = false)]
    simp only [if_neg (by decide : ¬(rbrace = ',')), eq_self_iff_true, if_true]
    rw [hins]
  | k, v, (k2, v2) :: qs, hwv, hwps, hnd, acc, rest, fuel, hf, hacc => by
    have h1 : 1 + jfuel v + jfuelMembers ((k2, v2) :: qs) ≤ fuel := by
      simpa [jfuelMembers] using hf
    obtain ⟨f, rfl⟩ : ∃ f, fuel = f + 1 := ⟨fuel - 1, by omega⟩
    rw [parseMembers_succ]
    unfold pmCore
    have hsk : skipWs (dumpsMember (k, v) ++ (dumpsMembers ((k2, v2) :: qs) ++
        (rbrace :: rest))) =
        '"' :: (escL k.data ++ ('"' :: ':' :: ' ' ::
          (dumpsL v ++ (dumpsMembers ((k2, v2) :: qs) ++ rbrace :: rest)))) := by
      simp only [dumpsMember, List.cons_append, List.append_assoc, List.singleton_append,
        List.nil_append]
      rw [skipWs_cons_of_not (by decide)]
    rw [hsk]
    simp only [eq_self_iff_true, if_true]
    rw [show escL k.data ++ ('"' :: ':' :: ' ' ::
          (dumpsL v ++ (dumpsMembers ((k2, v2) :: qs) ++ rbrace :: rest))) =
        escL k.data ++ '"' :: (':' :: ' ' ::
          (dumpsL v ++ (dumpsMembers ((k2, v2) :: qs) ++ rbrace :: rest))) from rfl]
    rw [parseStrBody_escL k.data []]
    simp only [List.nil_append]
    rw [show String.mk k.data = k from rfl]
    rw [skipWs_cons_of_not (by decide : isWs ':' = false)]
    simp only [eq_self_iff_true, if_true]
    rw [parseVal_ws f ' ' _ (by decide)]
    have hndg : headNotDig (dumpsMembers ((k2, v2) :: qs) ++ (rbrace :: rest)) = true := by
      simp [dumpsMembers, headNotDig, isDig]
    have hv := parseVal_dumps v hwv
      (dumpsMembers ((k2, v2) :: qs) ++ (rbrace :: rest)) f (by omega) hndg
    rw [hv]
    have hknotps : hasKeyL ((k2, v2) :: qs) k = false := by
      have h2 := hnd
      simp only [nodupKeys, Bool.and_eq_true] at h2
      simpa using h2.1
    have hins : dictInsert acc k v = acc ++ [(k, v)] :=
      dictInsert_append v (hacc (k, v) (by simp))
    have hwq : wfJ v2 = true ∧ wfM qs = true := by
      simpa [wfM, Bool.and_eq_true] using hwps
    have hndq : nodupKeys ((k2, v2) :: qs) = true := by
      have h2 := hnd
      simp only [nodupKeys, Bool.and_eq_true] at h2
      simp only [nodupKeys, Bool.and_eq_true]
      exact h2.2
    simp only [dumpsMembers, List.cons_append]
    rw [skipWs_cons_of_not (by decide)]
    simp only [eq_self_iff_true, if_true]
    rw [parseMembers_ws f ' ' _ _ (by decide)]
    rw [hins]
    have hacc2 : ∀ r ∈ (k2, v2) :: qs, hasKeyL (acc ++ [(k, v)]) r.1 = false := by
      intro r hr
      have hr1 : hasKeyL acc r.1 = false := hacc r (by simp [hr])
      have hr2 : r.1 ≠ k := hasKeyL_false_mem hknotps hr
      have hr3 : hasKeyL [(k, v)] r.1 = false := by
        simp [hasKeyL, Ne.symm hr2]
      rw [hasKeyL_append, hr1, hr3]
      rfl
    have hrec := parseMembers_dumps k2 v2 qs hwq.1 hwq.2 hndq (acc ++ [(k, v)]) rest f
      (by simp only [jfuelMembers] at h1 ⊢; omega) hacc2
    simpa [List.append_assoc] using hrec
termination_by k v ps hwv hwps hnd acc rest fuel hf hacc => 2 * (sizeOf v + sizeOf ps) + 1

end

/-! Fuel bound and the round-trip corollaries. -/

mutual

theorem jfuel_le : ∀ (v : J), jfuel v ≤ (dumpsL v).length
  | .null => by simp [jfuel, dumpsL]
  | .bool true => by simp [jfuel, dumpsL]
  | .bool false => by simp [jfuel, dumpsL]
  | .num n => by
    have hne := intChars_all n
    have hpos : 0 < (intChars n).length := List.length_pos.mpr hne
    simp only [jfuel, dumpsL]
    omega
  | .str s => by simp [jfuel, dumpsL]
  | .arr [] => by simp [jfuel, jfuelElems, dumpsL]
  | .arr (x :: xs) => by
    have h1 := jfuel_le x
    have h2 := jfuelElems_le xs
    simp only [jfuel, jfuelElems, dumpsL, List.length_cons, List.length_append]
    simp at h1 h2 ⊢
    omega
  | .obj [] => by simp [jfuel, jfuelMembers, dumpsL]
  | .obj ((k, v) :: ps) => by
    have h1 := jfuel_le v
    have h2 := jfuelMembers_le ps
    simp only [jfuel, jfuelMembers, dumpsL, dumpsMember, List.length_cons, List.length_append]
    simp at h1 h2 ⊢
    omega
termination_by v => sizeOf v

theorem jfuelElems_le : ∀ (xs : List J), jfuelElems xs ≤ (dumpsElems xs).length
  | [] => by simp [jfuelElems, dumpsElems]
  | x :: xs => by
    have h1 := jfuel_le x
    have h2 := jfuelElems_le xs
    simp only [jfuelElems, dumpsElems, List.length_cons, List.length_append]
    omega
termination_by xs => sizeOf xs

theorem jfuelMembers_le : ∀ (ps : List (String × J)), jfuelMembers ps ≤ (dumpsMembers ps).length
  | [] => by simp [jfuelMembers, dumpsMembers]
  | (k, v) :: ps => by
    have h1 := jfuel_le v
    have h2 := jfuelMembers_le ps
    simp only [jfuelMembers, dumpsMembers, dumpsMember, List.length_cons, List.length_append]
    simp at h1 h2 ⊢
    omega
termination_by ps => sizeOf ps

end

/-- Round trip on character lists. -/
theorem loadsL_dumps {v : J} (h : wfJ v = true) : loadsL (dumpsL v) = some v := by
  unfold loadsL
  have hlen : jfuel v ≤ (dumpsL v).length + 1 := le_trans (jfuel_le v) (by omega)
  have hp := parseVal_dumps v h [] ((dumpsL v).length + 1) hlen (by simp [headNotDig])
  rw [List.append_nil] at hp
  rw [hp]
  simp [skipWs]

/-- `json.loads (json.dumps v) = v` for well-formed values. -/
theorem loads_dumps {v : J} (h : wfJ v = true) : loads (dumpsStr v) = some v :=
  loadsL_dumps h

/-! Brace-extraction lemmas: when the prose before the embedded object has no
opening brace and the prose after it has no closing brace, the heuristic
slice is exactly the object's serialization. -/

theorem idxOf_prefix_not {c : Char} : ∀ (pre tail : List Char), c ∉ pre →
    idxOf c (pre ++ c :: tail) = some pre.length
  | [], tail, _ => by simp [idxOf]
  | p :: ps, tail, h => by
    have hp : ¬(p = c) := by
      intro he
      exact h (by simp [he])
    have ih := idxOf_prefix_not ps tail (fun hm => h (List.mem_cons_of_mem p hm))
    simp only [List.cons_append, idxOf, if_neg hp, Option.map_some', List.length_cons]
    rw [show idxOf c (ps.append (c :: tail)) = some ps.length from ih]
    rfl

theorem lastIdxOf_embed (pre mid post : List Char) (hpost : rbrace ∉ post)
    (hmid : ∃ rev, mid.reverse = rbrace :: rev) :
    lastIdxOf rbrace (pre ++ mid ++ post) = some (pre.length + mid.length - 1) := by
  obtain ⟨rev, hrev⟩ := hmid
  unfold lastIdxOf
  have hrw : (pre ++ mid ++ post).reverse = post.reverse ++ (rbrace :: (rev ++ pre.reverse)) := by
    simp [List.reverse_append, hrev]
  rw [hrw, idxOf_prefix_not post.reverse (rev ++ pre.reverse) (by simpa using hpost)]
  have hml : mid.length = rev.length + 1 := by
    have := congrArg List.length hrev
    simpa using this
  simp only [Option.map_some', List.length_reverse]
  congr 1
  simp only [List.length_append]
  omega

theorem braceSlice_embed (pre inner post : List Char)
    (hpre : lbrace ∉ pre) (hpost : rbrace ∉ post) :
    braceSlice (pre ++ (lbrace :: inner ++ [rbrace]) ++ post) =
      some (lbrace :: inner ++ [rbrace]) := by
  have hfst : idxOf lbrace (pre ++ (lbrace :: inner ++ [rbrace]) ++ post) = some pre.length := by
    rw [show pre ++ (lbrace :: inner ++ [rbrace]) ++ post =
        pre ++ lbrace :: (inner ++ [rbrace] ++ post) from by simp]
    exact idxOf_prefix_not pre _ hpre
  have hmidrev : ∃ rev, (lbrace :: inner ++ [rbrace]).reverse = rbrace :: rev :=
    ⟨inner.reverse ++ [lbrace], by simp⟩
  have hlst := lastIdxOf_embed pre (lbrace :: inner ++ [rbrace]) post hpost hmidrev
  have hml : (lbrace :: inner ++ [rbrace]).length = inner.length + 2 := by simp
  unfold braceSlice
  rw [hfst, hlst]
  have hlt : pre.length < pre.length + (lbrace :: inner ++ [rbrace]).length - 1 := by
    omega
  simp only [if_pos hlt]
  congr 1
  have hdrop : (pre ++ (lbrace :: inner ++ [rbrace]) ++ post).drop pre.length =
      (lbrace :: inner ++ [rbrace]) ++ post := by
    rw [List.append_assoc]
    exact List.drop_left pre ((lbrace :: inner ++ [rbrace]) ++ post)
  rw [hdrop]
  have harith : pre.length + (lbrace :: inner ++ [rbrace]).length - 1 - pre.length + 1 =
      (lbrace :: inner ++ [rbrace]).length := by
    omega
  rw [harith]
  exact List.take_left (lbrace :: inner ++ [rbrace]) post

theorem dumpsL_obj_shape (kvs : List (String × J)) :
    ∃ inner, dumpsL (J.obj kvs) = lbrace :: inner ++ [rbrace] := by
  cases kvs with
  | nil => exact ⟨[], rfl⟩
  | cons p ps =>
    exact ⟨dumpsMember p ++ dumpsMembers ps, by simp [dumpsL, List.append_assoc]⟩

/-! ### Step-level behavior lemmas for the loop claims -/

def evsOfRes : StepRes → List Event
  | .next _ evs => evs
  | .exited _ evs => evs
  | .crashed _ evs => evs

/-- State carried by a step result (`dflt` for a crash, which aborts the
process and leaves no successor state). -/
def stateOfRes (dflt : LoopState) : StepRes → LoopState
  | .next s _ => s
  | .exited s _ => s
  | .crashed _ _ => dflt

def modelCallsOf : List Event → Nat
  | [] => 0
  | .modelCall _ :: evs => modelCallsOf evs + 1
  | .fileWrite _ _ :: evs => modelCallsOf evs

def fileWritesOf : List Event → Nat
  | [] => 0
  | .fileWrite _ _ :: evs => fileWritesOf evs + 1
  | .modelCall _ :: evs => fileWritesOf evs

theorem afterCheck_evs (s : LoopState) (evs : List Event) :
    evsOfRes (afterCheck s evs) = evs := by
  unfold afterCheck
  split <;> rfl

theorem afterCheck_state (d : LoopState) (s : LoopState) (evs : List Event) :
    stateOfRes d (afterCheck s evs) = s := by
  unfold afterCheck
  split <;> rfl

theorem afterCheck_next (s : LoopState) (evs : List Event) (s2 : LoopState) (evs2 : List Event)
    (h : afterCheck s evs = .next s2 evs2) : s2 = s ∧ evs2 = evs ∧ s2.totalSteps ≤ 1000 := by
  unfold afterCheck at h
  split at h
  · cases h
  · cases h
    rename_i hle
    exact ⟨rfl, rfl, by omega⟩

/-- Packaging helper: the `doUpdate` facts specialised to a result of the
form `afterCheck st evs`. -/
theorem packAC (env : Env) (s : LoopState) (ts1 : Nat) (st : LoopState) (evs : List Event)
    (h1 : st.requestsMade = s.requestsMade ∨
      (st.requestsMade = s.requestsMade + 1 ∧ (s.requestsMade : Int) < env.maxRequests))
    (h2 : env.maxRequests ≤ (s.requestsMade : Int) → modelCallsOf evs = 0)
    (h3 : st.totalSteps = ts1)
    (h4 : fileWritesOf evs = 0) :
    ((stateOfRes s (afterCheck st evs)).requestsMade = s.requestsMade ∨
      ((stateOfRes s (afterCheck st evs)).requestsMade = s.requestsMade + 1 ∧
        (s.requestsMade : Int) < env.maxRequests))
    ∧ (env.maxRequests ≤ (s.requestsMade : Int) →
        modelCallsOf (evsOfRes (afterCheck st evs)) = 0)
    ∧ (stateOfRes s (afterCheck st evs)).totalSteps = ts1
    ∧ (∀ s2 evs2, afterCheck st evs = .next s2 evs2 → s2.totalSteps ≤ 1000)
    ∧ (∀ s2 evs2, afterCheck st evs = .exited s2 evs2 ∨ afterCheck st evs = .next s2 evs2 →
        s2.totalSteps = ts1)
    ∧ fileWritesOf (evsOfRes (afterCheck st evs)) = 0
    ∧ (∀ m evs2, afterCheck st evs ≠ .crashed m evs2) := by
  unfold afterCheck
  split
  · simp only [stateOfRes, evsOfRes]
    refine ⟨h1, h2, h3, ?_, ?_, h4, ?_⟩
    · intro s2 evs2 h
      cases h
    · intro s2 evs2 h
      rcases h with h | h
      · cases h
        exact h3
      · cases h
    · intro m evs2 h
      cases h
  · rename_i hle
    simp only [stateOfRes, evsOfRes]
    refine ⟨h1, h2, h3, ?_, ?_, h4, ?_⟩
    · intro s2 evs2 h
      cases h
      omega
    · intro s2 evs2 h
      rcases h with h | h
      · cases h
      · cases h
        exact h3
    · intro m evs2 h
      cases h

/-- All state/event facts about one `doUpdate` (lines 726-764): requests grow
only below the budget guard, no call is issued once the budget is reached,
`totalSteps` is set to the supplied value on every branch, `.next` states
respect the step ceiling, no file is written, and no exception escapes. -/
theorem doUpdate_spec (env : Env) (s : LoopState) (ts1 : Nat) (action att : J) :
    ((stateOfRes s (doUpdate env s ts1 action att)).requestsMade = s.requestsMade ∨
      ((stateOfRes s (doUpdate env s ts1 action att)).requestsMade = s.requestsMade + 1 ∧
        (s.requestsMade : Int) < env.maxRequests))
    ∧ (env.maxRequests ≤ (s.requestsMade : Int) →
        modelCallsOf (evsOfRes (doUpdate env s ts1 action att)) = 0)
    ∧ (stateOfRes s (doUpdate env s ts1 action att)).totalSteps = ts1
    ∧ (∀ s2 evs, doUpdate env s ts1 action att = .next s2 evs → s2.totalSteps ≤ 1000)
    ∧ (∀ s2 evs, doUpdate env s ts1 action att = .exited s2 evs ∨
        doUpdate env s ts1 action att = .next s2 evs → s2.totalSteps = ts1)
    ∧ fileWritesOf (evsOfRes (doUpdate env s ts1 action att)) = 0
    ∧ (∀ m evs, doUpdate env s ts1 action att ≠ .crashed m evs) := by
  simp only [doUpdate]
  split
  · exact packAC env s ts1 _ _ (Or.inl rfl) (fun _ => rfl) rfl rfl
  · split
    · refine ⟨Or.inl rfl, fun _ => rfl, rfl, ?_, ?_, rfl, ?_⟩
      · intro s2 evs h2
        cases h2
      · intro s2 evs h2
        rcases h2 with h2 | h2
        · cases h2
          rfl
        · cases h2
      · intro m evs h2
        cases h2
    · rename_i hguard
      have hlt : (s.requestsMade : Int) < env.maxRequests := by omega
      have hvac : ¬ env.maxRequests ≤ (s.requestsMade : Int) := by omega
      split
      · exact packAC env s ts1 _ _ (Or.inl rfl) (fun hge => absurd hge hvac) rfl rfl
      · split
        · exact packAC env s ts1 _ _ (Or.inr ⟨rfl, hlt⟩) (fun hge => absurd hge hvac) rfl rfl
        · split
          · exact packAC env s ts1 _ _ (Or.inr ⟨rfl, hlt⟩) (fun hge => absurd hge hvac) rfl rfl
          · exact packAC env s ts1 _ _ (Or.inr ⟨rfl, hlt⟩) (fun hge => absurd hge hvac) rfl rfl

/-- Packaging helper: the same facts specialised to a result of the form
`StepRes.exited st evs`. -/
theorem packEx (env : Env) (s : LoopState) (ts1 : Nat) (st : LoopState) (evs : List Event)
    (h1 : st.requestsMade = s.requestsMade ∨
      (st.requestsMade = s.requestsMade + 1 ∧ (s.requestsMade : Int) < env.maxRequests))
    (h2 : env.maxRequests ≤ (s.requestsMade : Int) → modelCallsOf evs = 0)
    (h3 : st.totalSteps = ts1)
    (h4 : fileWritesOf evs = 0) :
    ((stateOfRes s (StepRes.exited st evs)).requestsMade = s.requestsMade ∨
      ((stateOfRes s (StepRes.exited st evs)).requestsMade = s.requestsMade + 1 ∧
        (s.requestsMade : Int) < env.maxRequests))
    ∧ (env.maxRequests ≤ (s.requestsMade : Int) →
        modelCallsOf (evsOfRes (StepRes.exited st evs)) = 0)
    ∧ (stateOfRes s (StepRes.exited st evs)).totalSteps = ts1
    ∧ (∀ s2 evs2, StepRes.exited st evs = .next s2 evs2 → s2.totalSteps ≤ 1000)
    ∧ (∀ s2 evs2, StepRes.exited st evs = .exited s2 evs2 ∨
        StepRes.exited st evs = .next s2 evs2 → s2.totalSteps = ts1)
    ∧ fileWritesOf (evsOfRes (StepRes.exited st evs)) = 0
    ∧ (∀ m evs2, StepRes.exited st evs ≠ .crashed m evs2) := by
  simp only [stateOfRes, evsOfRes]
  refine ⟨h1, h2, h3, ?_, ?_, h4, ?_⟩
  · intro s2 evs2 h
    cases h
  · intro s2 evs2 h
    rcases h with h | h
    · cases h
      exact h3
    · cases h
  · intro m evs2 h
    cases h

/-- All state/event facts about one `doAsk` (lines 769-803): requests grow
only below the budget guard, no call is issued once the budget is reached,
`totalSteps` is never changed, `.next` states respect the step ceiling, no
file is written, and no exception escapes. -/
theorem doAsk_spec (env : Env) (s : LoopState) :
    ((stateOfRes s (doAsk env s)).requestsMade = s.requestsMade ∨
      ((stateOfRes s (doAsk env s)).requestsMade = s.requestsMade + 1 ∧
        (s.requestsMade : Int) < env.maxRequests))
    ∧ (env.maxRequests ≤ (s.requestsMade : Int) →
        modelCallsOf (evsOfRes (doAsk env s)) = 0)
    ∧ (stateOfRes s (doAsk env s)).totalSteps = s.totalSteps
    ∧ (∀ s2 evs, doAsk env s = .next s2 evs → s2.totalSteps ≤ 1000)
    ∧ (∀ s2 evs, doAsk env s = .exited s2 evs ∨ doAsk env s = .next s2 evs →
        s2.totalSteps = s.totalSteps)
    ∧ fileWritesOf (evsOfRes (doAsk env s)) = 0
    ∧ (∀ m evs, doAsk env s ≠ .crashed m evs) := by
  simp only [doAsk]
  split
  · exact packEx env s s.totalSteps _ _ (Or.inl rfl) (fun _ => rfl) rfl rfl
  · rename_i hguard
    have hlt : (s.requestsMade : Int) < env.maxRequests := by omega
    have hvac : ¬ env.maxRequests ≤ (s.requestsMade : Int) := by omega
    split
    · exact packEx env s s.totalSteps _ _ (Or.inl rfl) (fun hge => absurd hge hvac) rfl rfl
    · split
      · exact packEx env s s.totalSteps _ _ (Or.inl rfl) (fun hge => absurd hge hvac) rfl rfl
      · split
        · exact packEx env s s.totalSteps _ _ (Or.inr ⟨rfl, hlt⟩)
            (fun hge => absurd hge hvac) rfl rfl
        · split
          · exact packAC env s s.totalSteps _ _ (Or.inr ⟨rfl, hlt⟩)
              (fun hge => absurd hge hvac) rfl rfl
          · exact packEx env s s.totalSteps _ _ (Or.inr ⟨rfl, hlt⟩)
              (fun hge => absurd hge hvac) rfl rfl

/-- `finalizar` emits file writes only, never model calls. -/
theorem finalizar_modelCalls (env : Env) (action : J) (evs : List Event)
    (h : finalizarProcess env action = .ok evs) : modelCallsOf evs = 0 := by
  simp only [finalizarProcess] at h
  repeat' split at h
  all_goals first | (cases h; rfl) | cases h

/-- Packaging helper: the step facts specialised to a crash result. -/
theorem packCr (env : Env) (s : LoopState) (t : Nat) (m : String) :
    ((stateOfRes s (StepRes.crashed m [])).requestsMade = s.requestsMade ∨
      ((stateOfRes s (StepRes.crashed m [])).requestsMade = s.requestsMade + 1 ∧
        (s.requestsMade : Int) < env.maxRequests))
    ∧ (env.maxRequests ≤ (s.requestsMade : Int) →
        modelCallsOf (evsOfRes (StepRes.crashed m [])) = 0)
    ∧ (∀ s2 evs, StepRes.crashed m ([] : List Event) = .next s2 evs → s2.totalSteps ≤ 1000)
    ∧ (∀ s2 evs, StepRes.crashed m ([] : List Event) = .exited s2 evs ∨
        StepRes.crashed m ([] : List Event) = .next s2 evs →
        s2.totalSteps = t) := by
  refine ⟨Or.inl rfl, fun _ => rfl, ?_, ?_⟩
  · intro s2 evs h
    cases h
  · intro s2 evs h
    rcases h with h | h
    · cases h
    · cases h

/-- All state/event facts about one loop iteration (lines 654-807): requests
grow by at most one and only below the budget guard, no model call is issued
once the budget is reached, a continuing (`.next`) state respects the step
ceiling, and surviving states gained exactly one `totalSteps` when the
current response carried a truthy action and zero otherwise. -/
theorem step_spec (env : Env) (s : LoopState) :
    ((stateOfRes s (step env s)).requestsMade = s.requestsMade ∨
      ((stateOfRes s (step env s)).requestsMade = s.requestsMade + 1 ∧
        (s.requestsMade : Int) < env.maxRequests))
    ∧ (env.maxRequests ≤ (s.requestsMade : Int) →
        modelCallsOf (evsOfRes (step env s)) = 0)
    ∧ (∀ s2 evs, step env s = .next s2 evs → s2.totalSteps ≤ 1000)
    ∧ (∀ s2 evs, step env s = .exited s2 evs ∨ step env s = .next s2 evs →
        s2.totalSteps =
          (if truthy (actionOf s.response) then s.totalSteps + 1 else s.totalSteps)) := by
  simp only [step]
  split
  · split
    · split
      · split
        · exact packCr env s (s.totalSteps + 1) _
        · obtain ⟨h1, h2, h3, h4, h5, h6, h7⟩ := doUpdate_spec env s (s.totalSteps + 1) _ _
          exact ⟨h1, h2, h4, h5⟩
      · split
        · split
          · exact packCr env s (s.totalSteps + 1) _
          · rename_i evs2 heq
            refine ⟨Or.inl rfl, fun _ => finalizar_modelCalls env _ evs2 heq, ?_, ?_⟩
            · intro s2 evs h
              cases h
            · intro s2 evs h
              rcases h with h | h
              · cases h
                rfl
              · cases h
        · obtain ⟨h1, h2, h3, h4, h5, h6, h7⟩ := doUpdate_spec env s (s.totalSteps + 1) _ _
          exact ⟨h1, h2, h4, h5⟩
    · exact packCr env s (s.totalSteps + 1) _
  · obtain ⟨h1, h2, h3, h4, h5, h6, h7⟩ := doAsk_spec env s
    exact ⟨h1, h2, h4, h5⟩

theorem modelCallsOf_append (a b : List Event) :
    modelCallsOf (a ++ b) = modelCallsOf a + modelCallsOf b := by
  induction a with
  | nil => simp [modelCallsOf]
  | cons e a ih =>
    cases e with
    | modelCall p => simp [modelCallsOf, ih]; omega
    | fileWrite p c => simp [modelCallsOf, ih]

/-- Loop invariant: the request counter never leaves
`[0, max maxRequests 1]` once inside it. -/
theorem runLoop_requests_le (env : Env) : ∀ (fuel : Nat) (s : LoopState),
    (s.requestsMade : Int) ≤ max env.maxRequests 1 →
    (((runLoop env fuel s).state.requestsMade : Int) ≤ max env.maxRequests 1)
  | 0, s, h => h
  | fuel + 1, s, h => by
    simp only [runLoop]
    split
    · exact h
    · obtain ⟨h1, h2, h3, h4⟩ := step_spec env s
      split
      · rename_i s2 evs heq
        rw [heq] at h1
        simp only [stateOfRes] at h1
        refine runLoop_requests_le env fuel s2 ?_
        rcases h1 with h' | ⟨h', hlt⟩
        · omega
        · omega
      · rename_i s2 evs heq
        rw [heq] at h1
        simp only [stateOfRes] at h1
        rcases h1 with h' | ⟨h', hlt⟩
        · simpa [h'] using h
        · simp only [h']
          push_cast
          omega
      · exact h

/-- Loop invariant: once the request budget is exhausted, the remainder of
the run issues no model call at all. -/
theorem runLoop_noCall (env : Env) : ∀ (fuel : Nat) (s : LoopState),
    env.maxRequests ≤ (s.requestsMade : Int) →
    modelCallsOf (runLoop env fuel s).events = 0
  | 0, _, _ => rfl
  | fuel + 1, s, h => by
    simp only [runLoop]
    split
    · rfl
    · obtain ⟨h1, h2, h3, h4⟩ := step_spec env s
      split
      · rename_i s2 evs heq
        rw [heq] at h1 h2
        simp only [stateOfRes, evsOfRes] at h1 h2
        have hs2 : env.maxRequests ≤ (s2.requestsMade : Int) := by
          rcases h1 with h' | ⟨h', hlt⟩
          · omega
          · omega
        simp only [modelCallsOf_append, h2 h, runLoop_noCall env fuel s2 hs2]
      · rename_i s2 evs heq
        rw [heq] at h2
        simpa [evsOfRes] using h2 h
      · rename_i m evs heq
        rw [heq] at h2
        simpa [evsOfRes] using h2 h

/-- Loop invariant: starting at or below the 1000-step ceiling, the final
state of the loop can exceed it by at most the one increment the detecting
iteration performed. -/
theorem runLoop_steps_le (env : Env) : ∀ (fuel : Nat) (s : LoopState),
    s.totalSteps ≤ 1000 →
    (runLoop env fuel s).state.totalSteps ≤ 1001
  | 0, s, h => by
    simpa [runLoop] using (by omega : s.totalSteps ≤ 1001)
  | fuel + 1, s, h => by
    simp only [runLoop]
    split
    · show s.totalSteps ≤ 1001
      omega
    · obtain ⟨h1, h2, h3, h4⟩ := step_spec env s
      split
      · rename_i s2 evs heq
        exact runLoop_steps_le env fuel s2 (by have := h3 s2 evs heq; omega)
      · rename_i s2 evs heq
        show s2.totalSteps ≤ 1001
        have := h4 s2 evs (Or.inl heq)
        split at this <;> omega
      · show s.totalSteps ≤ 1001
        omega

/-- Once an iteration breaks out (`.exited`), the loop returns immediately:
its state, its events, outcome `finished` — no further model call. -/
theorem runLoop_exited (env : Env) (fuel : Nat) (s s2 : LoopState) (evs : List Event)
    (hdone : s.done = false) (hstep : step env s = .exited s2 evs) :
    runLoop env (fuel + 1) s = ⟨s2, evs, .finished⟩ := by
  simp only [runLoop, hdone, hstep, Bool.false_eq_true, if_false]

/-! ### Concrete run contexts for counterexamples and witnesses -/

def baseEnv : Env :=
  { maxRequests := 5, isGenerateContent := false, oracle := fun _ => none,
    config := J.obj [], configDir := "/cfg", allowedRoot := "/a/b",
    allowedRootFromAbsolute := true, cwd := "/", fsExists := fun _ => false,
    fsRead := fun _ => "", fileTree := J.null, promptText := "",
    orchestratorText := "", requestText := "" }

def envC1 : Env :=
  { baseEnv with fsExists := fun p => p == "/a/bc/f", fsRead := fun _ => "SECRET" }

def actC1 : J :=
  J.obj [("type", J.str "leia_arquivo"), ("parameters", J.obj [("path", J.str "/a/bc/f")])]

def actC1w : J :=
  J.obj [("type", J.str "leia_arquivo"), ("parameters", J.obj [("path", J.str "/outside/f")])]

/-- C1, counterexample: with allowed root /a/b, the request for /a/bc/f
resolves to a path outside the allowed-root directory (in the
specification's sense of directory containment), yet the string-prefix test
of line 688 accepts it and the attachment carries the file content, not
null. -/
theorem c1_counterexample :
    specInsideDir (abspath envC1.cwd envC1.allowedRoot)
      (abspath envC1.cwd (requestedPath envC1 "/a/bc/f")) = false
    ∧ leiaArquivoAttach envC1 actC1 = .ok (J.obj [("/a/bc/f", J.str "SECRET")]) := by
  constructor
  · decide
  · decide

/-- C1 (corrected): containment of a leia_arquivo request is decided by the
canonical resolved path having the canonical allowed root as a string
prefix (lines 686-688) — not by directory containment, so sibling paths
that merely extend the root's name (such as /a/bc under root /a/b) are
admitted.  When the string-prefix test fails, the attachment value for the
requested path is null — never the content, and never an exception. -/
theorem c1_theorem (env : Env) (action : J) (p : String) (pkvs : List (String × J))
    (hparams : jGet action "parameters" = some (J.obj pkvs))
    (hpv : lookupL pkvs "path" = some (J.str p))
    (hp : truthy (J.str p) = true)
    (hpref : startsWithStr (abspath env.cwd (requestedPath env p))
      (abspath env.cwd env.allowedRoot) = false) :
    leiaArquivoAttach env action = .ok (J.obj [(p, J.null)]) := by
  have hres : resolveAndFetch env p = none := by
    simp only [resolveAndFetch]
    split
    · rw [hpref]
      simp
    · rfl
  have htp : truthy (J.obj pkvs) = true := by
    cases pkvs with
    | nil => cases hpv
    | cons q qs => rfl
  simp only [leiaArquivoAttach, hparams, Option.getD_some, htp, if_true, hpv, hp, hres]

/-- C1, witness: a request whose canonical path fails the prefix test
yields the null attachment. -/
theorem c1_witness :
    startsWithStr (abspath envC1.cwd (requestedPath envC1 "/outside/f"))
      (abspath envC1.cwd envC1.allowedRoot) = false
    ∧ leiaArquivoAttach envC1 actC1w = .ok (J.obj [("/outside/f", J.null)]) :=
  ⟨by decide,
    c1_theorem envC1 actC1w "/outside/f" [("path", J.str "/outside/f")]
      (by decide) (by decide) (by decide) (by decide)⟩

def cfgC2 : J := J.obj [("conexão", J.obj [("limite_passos", J.num 0)])]

def envC2 : Env := { baseEnv with maxRequests := mkMaxRequests cfgC2, config := cfgC2 }

def respC2 : J := J.obj [("memory", J.obj []), ("action", J.null)]

def ranState : MaestroResult → Option LoopState
  | .ran r => some r.state
  | _ => none

def stC2 : LoopState :=
  { response := respC2, memory := J.obj [], totalSteps := 0, requestsMade := 1,
    callIdx := 0, done := false }

def rC2 : RunResult := runLoop envC2 2 stC2

/-- C2, counterexample: with limite_passos = 0 the configured budget is 0,
yet the unconditional initial call already counts (requests_made starts at
1, line 650), so a completed run ends with the request counter strictly
above the configured maximum. -/
theorem c2_counterexample :
    envC2.maxRequests = 0
    ∧ (ranState (runMaestro envC2 (some respC2) 2)).map LoopState.requestsMade = some 1
    ∧ ¬ ((1 : Int) ≤ envC2.maxRequests) := by
  refine ⟨by decide, by decide, by decide⟩

/-- A response that is a mapping always yields a plan without raising
(lines 734/778: response.get succeeds on any dict). -/
theorem planOf_obj (kvs : List (String × J)) : ∃ pv, planOf (J.obj kvs) = .ok pv := by
  by_cases h : truthy (J.obj kvs) = true
  · exact ⟨(lookupL kvs "plan").getD .null, by simp [planOf, h]⟩
  · have h2 : truthy (J.obj kvs) = false := by
      cases ht : truthy (J.obj kvs) with
      | false => rfl
      | true => exact absurd ht h
    exact ⟨J.null, by simp [planOf, h2]⟩

/-- A truthy action can only come from a mapping response (line 656:
response.get would raise otherwise, and a non-mapping gives no action). -/
theorem actionOf_truthy_obj {resp : J} (h : truthy (actionOf resp) = true) :
    ∃ kvs, resp = J.obj kvs := by
  cases resp with
  | obj kvs => exact ⟨kvs, rfl⟩
  | null => simp [actionOf, truthy] at h
  | bool b => simp [actionOf, truthy] at h
  | num n => simp [actionOf, truthy] at h
  | str t => simp [actionOf, truthy] at h
  | arr l => simp [actionOf, truthy] at h

/-- Lines 748-750: at the budget guard of the action-update turn, the loop
sets done and breaks, issuing no call. -/
theorem doUpdate_exhausted (env : Env) (s : LoopState) (ts1 : Nat) (a att pv : J)
    (hplan : planOf s.response = .ok pv)
    (h : env.maxRequests ≤ (s.requestsMade : Int)) :
    doUpdate env s ts1 a att = .exited { s with totalSteps := ts1, done := true } [] := by
  simp only [doUpdate, hplan]
  rw [if_pos h]

/-- Lines 771-773: at the budget guard of the next-steps turn, the loop
breaks, issuing no call. -/
theorem doAsk_exhausted (env : Env) (s : LoopState)
    (h : env.maxRequests ≤ (s.requestsMade : Int)) :
    doAsk env s = .exited s [] := by
  simp only [doAsk]
  rw [if_pos h]

/-- Once the request budget is exhausted, an iteration never continues the
loop: whatever the pending action, it exits (or aborts on an ill-typed
action), so the loop terminates within one further iteration. -/
theorem step_exhausted_no_next (env : Env) (s : LoopState)
    (h : env.maxRequests ≤ (s.requestsMade : Int)) (s2 : LoopState) (evs : List Event) :
    step env s ≠ .next s2 evs := by
  intro hc
  simp only [step] at hc
  split at hc
  · rename_i htr
    obtain ⟨kvs, hkvs⟩ := actionOf_truthy_obj htr
    obtain ⟨pv, hplan0⟩ := planOf_obj kvs
    have hplan : planOf s.response = .ok pv := by
      rw [hkvs]
      exact hplan0
    split at hc
    · split at hc
      · split at hc
        · cases hc
        · rw [doUpdate_exhausted env s _ _ _ pv hplan h] at hc
          cases hc
      · split at hc
        · split at hc
          · cases hc
          · cases hc
        · rw [doUpdate_exhausted env s _ _ _ pv hplan h] at hc
          cases hc
    · cases hc
  · rw [doAsk_exhausted env s h] at hc
    cases hc

/-- Once the budget is exhausted, the loop completes on any remaining fuel:
it never merely runs out of fuel. -/
theorem runLoop_exhausted_halts (env : Env) (fuel : Nat) (s : LoopState)
    (h : env.maxRequests ≤ (s.requestsMade : Int)) :
    (runLoop env (fuel + 1) s).outcome ≠ Outcome.fuelOut := by
  simp only [runLoop]
  split
  · intro hc
    cases hc
  · split
    · rename_i s2 evs heq
      exact absurd heq (step_exhausted_no_next env s h s2 evs)
    · intro hc
      cases hc
    · intro hc
      cases hc

/-- C2 (corrected): the request counter can exceed the configured maximum by
the one unconditional initial call, and never by more: every completed run
ends with requestsMade at most max(maxRequests, 1).  And whenever the
counter has reached the budget — at the start of the run or mid-run, for
any budget — no further model call is ever issued, by the very next
iteration or by the whole remainder of the run, and the loop terminates:
the next iteration never continues, so the loop completes on any remaining
fuel. -/
theorem c2_theorem (env : Env) :
    (∀ (initCall : Option J) (fuel : Nat) (r : RunResult),
      runMaestro env initCall fuel = .ran r →
      ((r.state.requestsMade : Int) ≤ max env.maxRequests 1
       ∧ (env.maxRequests ≤ 1 → modelCallsOf r.events = 0)))
    ∧ (∀ (s : LoopState), env.maxRequests ≤ (s.requestsMade : Int) →
      (modelCallsOf (evsOfRes (step env s)) = 0
       ∧ (∀ s2 evs, step env s ≠ .next s2 evs)
       ∧ (∀ fuel, modelCallsOf (runLoop env fuel s).events = 0)
       ∧ (∀ fuel, (runLoop env (fuel + 1) s).outcome ≠ Outcome.fuelOut))) := by
  constructor
  · intro initCall fuel r h
    cases initCall with
    | none =>
      simp only [runMaestro] at h
      cases h
    | some raw =>
      simp only [runMaestro] at h
      cases hre : (if env.isGenerateContent then genExtractInitial raw else Except.ok raw) with
      | error e =>
        simp only [hre] at h
        cases h
      | ok resp =>
        simp only [hre] at h
        cases hens : ensureStructured resp with
        | error m =>
          simp only [hens] at h
          cases h
        | ok response =>
          simp only [hens] at h
          cases response with
          | null => cases h
          | bool b => cases h
          | num n => cases h
          | str t => cases h
          | arr l => cases h
          | obj rkvs =>
            cases h
            constructor
            · refine runLoop_requests_le env fuel _ ?_
              show (1 : Int) ≤ max env.maxRequests 1
              omega
            · intro hb
              refine runLoop_noCall env fuel _ ?_
              show env.maxRequests ≤ (1 : Int)
              omega
  · intro s hs
    exact ⟨(step_spec env s).2.1 hs,
      fun s2 evs => step_exhausted_no_next env s hs s2 evs,
      fun fuel => runLoop_noCall env fuel s hs,
      fun fuel => runLoop_exhausted_halts env fuel s hs⟩

def envC2b : Env := { baseEnv with maxRequests := 3 }

/-- A mid-run state of a budget-3 run whose counter has just reached the
budget, with a pending truthy action. -/
def stC2b : LoopState :=
  { response := J.obj [("action", J.obj [("type", J.str "noop")]), ("memory", J.obj [])],
    memory := J.obj [], totalSteps := 2, requestsMade := 3, callIdx := 2, done := false }

/-- C2, witness: the budget-0 run satisfies the amended bound, and a budget-3
run whose counter has reached 3 mid-run with a pending action issues no
further call, never continues, and completes on one unit of fuel. -/
theorem c2_witness :
    ((rC2.state.requestsMade : Int) ≤ max envC2.maxRequests 1)
    ∧ modelCallsOf (evsOfRes (step envC2b stC2b)) = 0
    ∧ (∀ s2 evs, step envC2b stC2b ≠ .next s2 evs)
    ∧ (runLoop envC2b (0 + 1) stC2b).outcome ≠ Outcome.fuelOut :=
  ⟨((c2_theorem envC2).1 (some respC2) 2 rC2 (by decide)).1,
   ((c2_theorem envC2b).2 stC2b (by decide)).1,
   ((c2_theorem envC2b).2 stC2b (by decide)).2.1,
   ((c2_theorem envC2b).2 stC2b (by decide)).2.2.2 0⟩

def respC3 : J := J.obj [("action", J.obj [("type", J.str "bogus")]), ("memory", J.obj [])]

def stC3 : LoopState :=
  { response := respC3, memory := J.obj [], totalSteps := 0, requestsMade := 1,
    callIdx := 0, done := false }

def s2C3 : LoopState := stateOfRes stC3 (step baseEnv stC3)

def evsC3 : List Event := evsOfRes (step baseEnv stC3)

/-- C3, counterexample: total_steps is incremented (line 659) before the
action type is dispatched, so an action of unknown type — which the spec
counts as skipped, with a zero increment — still advances totalSteps by
one. -/
theorem c3_counterexample :
    actionOf stC3.response = J.obj [("type", J.str "bogus")]
    ∧ (lookupL [("type", J.str "bogus")] "type").getD J.null ≠ J.str "leia_arquivo"
    ∧ (lookupL [("type", J.str "bogus")] "type").getD J.null ≠ J.str "finalizar"
    ∧ (stateOfRes stC3 (step baseEnv stC3)).totalSteps = stC3.totalSteps + 1 := by
  refine ⟨by decide, by decide, by decide, by decide⟩

/-- C3 (corrected): totalSteps increases by exactly one whenever the current
response carries a truthy action — executed or of unknown type alike — and
by zero otherwise; a continuing iteration always respects the hard 1000-step
ceiling, so the loop's final state never exceeds 1001 steps regardless of
the configured request budget. -/
theorem c3_theorem (env : Env) (s : LoopState) :
    (∀ s2 evs, step env s = .exited s2 evs ∨ step env s = .next s2 evs →
      s2.totalSteps =
        (if truthy (actionOf s.response) then s.totalSteps + 1 else s.totalSteps))
    ∧ (∀ s2 evs, step env s = .next s2 evs → s2.totalSteps ≤ 1000)
    ∧ (∀ fuel, s.totalSteps ≤ 1000 → (runLoop env fuel s).state.totalSteps ≤ 1001) := by
  obtain ⟨h1, h2, h3, h4⟩ := step_spec env s
  exact ⟨h4, h3, fun fuel h => runLoop_steps_le env fuel s h⟩

/-- C3, witness: the unknown-type iteration advances totalSteps by one. -/
theorem c3_witness :
    s2C3.totalSteps =
      (if truthy (actionOf stC3.response) then stC3.totalSteps + 1 else stC3.totalSteps) :=
  (c3_theorem baseEnv stC3).1 s2C3 evsC3 (Or.inr (by decide))

/-- Whether a structured value is a mapping carrying a memory field. -/
def hasMemory : J → Bool
  | .obj kvs => hasKeyL kvs "memory"
  | _ => false

theorem hasMemory_ensureMemory (kvs : List (String × J)) :
    hasMemory (J.obj (ensureMemory kvs)) = true := by
  simp only [hasMemory, ensureMemory]
  split
  · assumption
  · rw [hasKeyL_append]
    simp [hasKeyL]

def strC4 : String := "\x7b\"a\": 1\x7d"

/-- C4, counterexample: a plain-text reply that parses directly as JSON is
returned verbatim (line 384), skipping the memory default: the result of
the normalizer has no memory field. -/
theorem c4_counterexample :
    ensureStructured (J.str strC4) = .ok (J.obj [("a", J.num 1)])
    ∧ hasMemory (J.obj [("a", J.num 1)]) = false := by
  refine ⟨by decide, by decide⟩

/-- C4 (corrected): every mapping input accepted by the normalizer comes
back with a memory field (defaulted to an empty mapping when absent), but a
string input whose direct JSON parse succeeds is returned exactly as parsed,
with no memory default applied on that path. -/
theorem c4_theorem :
    (∀ kvs v, ensureStructured (J.obj kvs) = .ok v → hasMemory v = true)
    ∧ (∀ t v, loads t = some v → ensureStructured (J.str t) = .ok v) := by
  constructor
  · intro kvs v h
    simp only [ensureStructured] at h
    repeat' split at h
    all_goals cases h
    all_goals first
      | exact hasMemory_ensureMemory _
      | rfl
  · intro t v h
    simp only [ensureStructured, h]

/-- C4, witness: a mapping without memory gains it; the string "3" comes
back as the bare parsed number 3. -/
theorem c4_witness :
    hasMemory (J.obj [("x", J.num 2), ("memory", J.obj [])]) = true
    ∧ ensureStructured (J.str "3") = .ok (J.num 3) :=
  ⟨c4_theorem.1 [("x", J.num 2)] (J.obj [("x", J.num 2), ("memory", J.obj [])]) (by decide),
   c4_theorem.2 "3" (J.num 3) (by decide)⟩

def respC5 : J :=
  J.obj [("actions", J.arr [J.obj [("type", J.str "finalizar"),
          ("parameters", J.obj [("content", J.str "<h1>x</h1>")])]]),
         ("memory", J.obj [])]

def stC5 : LoopState :=
  { response := respC5, memory := J.obj [], totalSteps := 0, requestsMade := 1,
    callIdx := 0, done := false }

def envC5 : Env :=
  { baseEnv with maxRequests := 1, config := J.obj [("relatório", J.str "out.html")] }

/-- C5, counterexample: a response whose actions are supplied only through
an actions array is treated as carrying no action at all — the array is
never read (line 656 consults only the single action key), nothing is
truncated, and its finalizar action is never executed. -/
theorem c5_counterexample :
    truthy (actionOf respC5) = false
    ∧ step envC5 stC5 = .exited stC5 []
    ∧ fileWritesOf (evsOfRes (step envC5 stC5)) = 0 := by
  refine ⟨by decide, by decide, by decide⟩

/-- C5 (corrected): the step loop supports only the single nullable action
shape: the action of a response is exactly its action key, and a response
without that key — whatever else it carries, an actions array included —
takes the next-steps turn, its listed actions ignored. -/
theorem c5_theorem (env : Env) (s : LoopState) (kvs : List (String × J))
    (hresp : s.response = J.obj kvs) (hno : lookupL kvs "action" = none) :
    actionOf s.response = J.null ∧ step env s = doAsk env s := by
  have ha : actionOf s.response = J.null := by
    rw [hresp]
    simp [actionOf, hno]
  refine ⟨ha, ?_⟩
  simp [step, ha, truthy]

/-- C5, witness: the actions-array response takes the next-steps turn. -/
theorem c5_witness :
    actionOf stC5.response = J.null ∧ step envC5 stC5 = doAsk envC5 stC5 :=
  c5_theorem envC5 stC5
    [("actions", J.arr [J.obj [("type", J.str "finalizar"),
       ("parameters", J.obj [("content", J.str "<h1>x</h1>")])]]),
     ("memory", J.obj [])] rfl (by decide)

def envC6 : Env := { baseEnv with config := J.obj [("relatório", J.str "out.html")] }

def actC6 : J :=
  J.obj [("type", J.str "finalizar"), ("parameters", J.obj [("content", J.str "<h1>r</h1>")])]

def actC6e : J :=
  J.obj [("type", J.str "finalizar"), ("parameters", J.obj [("content", J.str "")])]

/-- C6, counterexample: parameters.content present as the empty string, no
parameters.path, report path configured — the truthiness-based selection of
line 697 skips the present-but-empty content and nothing is written, where
the claim promises a verbatim write of that content. -/
theorem c6_counterexample :
    hasKeyL [("content", J.str "")] "content" = true
    ∧ jGet envC6.config "relatório" = some (J.str "out.html")
    ∧ lookupL [("content", J.str "")] "path" = none
    ∧ finalizarProcess envC6 actC6e = .ok [] := by
  refine ⟨by decide, by decide, by decide, by decide⟩

theorem truthy_null : truthy J.null = false := rfl

/-- C6 (corrected): the finalizar arm selects its HTML content by
truthiness — parameters.content, else parameters.html, else
parameters.html_content, in that fixed order, a present-but-falsy value
(such as the empty string) falling through — and its save path by
truthiness likewise, a truthy parameters.path taking precedence over the
configured report path; a truthy content is written verbatim to the
resolved path, with no truthy path the content is discarded, and the
iteration that processed finalizar exits the loop at once with done set and
no further model call. -/
theorem c6_theorem (env : Env) (action : J) (pkvs : List (String × J))
    (hparams : jGet action "parameters" = some (J.obj pkvs)) :
    (∀ c rp, lookupL pkvs "content" = some (J.str c) → truthy (J.str c) = true →
      lookupL pkvs "path" = none →
      jGet env.config "relatório" = some (J.str rp) → truthy (J.str rp) = true →
      finalizarProcess env action =
        .ok [.fileWrite (if isabs rp then rp else pjoin env.configDir rp) c])
    ∧ (∀ c ps, lookupL pkvs "content" = some (J.str c) → truthy (J.str c) = true →
      lookupL pkvs "path" = some (J.str ps) → truthy (J.str ps) = true →
      finalizarProcess env action =
        .ok [.fileWrite (if isabs ps then ps else pjoin env.configDir ps) c])
    ∧ (∀ hh rp, truthy ((lookupL pkvs "content").getD J.null) = false →
      lookupL pkvs "html" = some (J.str hh) → truthy (J.str hh) = true →
      lookupL pkvs "path" = none →
      jGet env.config "relatório" = some (J.str rp) → truthy (J.str rp) = true →
      finalizarProcess env action =
        .ok [.fileWrite (if isabs rp then rp else pjoin env.configDir rp) hh])
    ∧ (∀ hc rp, truthy ((lookupL pkvs "content").getD J.null) = false →
      truthy ((lookupL pkvs "html").getD J.null) = false →
      lookupL pkvs "html_content" = some (J.str hc) → truthy (J.str hc) = true →
      lookupL pkvs "path" = none →
      jGet env.config "relatório" = some (J.str rp) → truthy (J.str rp) = true →
      finalizarProcess env action =
        .ok [.fileWrite (if isabs rp then rp else pjoin env.configDir rp) hc])
    ∧ (truthy ((lookupL pkvs "content").getD J.null) = false →
      truthy ((lookupL pkvs "html").getD J.null) = false →
      truthy ((lookupL pkvs "html_content").getD J.null) = false →
      finalizarProcess env action = .ok [])
    ∧ (∀ c, lookupL pkvs "content" = some (J.str c) → truthy (J.str c) = true →
      truthy ((lookupL pkvs "path").getD J.null) = false →
      truthy ((jGet env.config "relatório").getD J.null) = false →
      finalizarProcess env action = .ok [])
    ∧ (∀ (s : LoopState) (akvs : List (String × J)) (evs : List Event) (fuel : Nat),
      s.done = false → actionOf s.response = J.obj akvs →
      ((lookupL akvs "type").getD J.null == J.str "finalizar") = true →
      finalizarProcess env (J.obj akvs) = .ok evs →
      step env s = .exited { s with totalSteps := s.totalSteps + 1, done := true } evs
      ∧ modelCallsOf evs = 0
      ∧ runLoop env (fuel + 1) s =
          ⟨{ s with totalSteps := s.totalSteps + 1, done := true }, evs, .finished⟩) := by
  refine ⟨?_, ?_, ?_, ?_, ?_, ?_, ?_⟩
  · intro c rp hc htc hpath hrel hrp
    have htp : truthy (J.obj pkvs) = true := by
      cases pkvs with
      | nil => cases hc
      | cons q qs => rfl
    simp only [finalizarProcess, hparams, Option.getD_some, Option.getD_none, htp, if_true,
      hc, htc, hpath, hrel, hrp, truthy_null, Bool.false_eq_true, if_false]
  · intro c ps hc htc hpath hps
    have htp : truthy (J.obj pkvs) = true := by
      cases pkvs with
      | nil => cases hc
      | cons q qs => rfl
    simp only [finalizarProcess, hparams, Option.getD_some, Option.getD_none, htp, if_true,
      hc, htc, hpath, hps, truthy_null, Bool.false_eq_true, if_false]
  · intro hh rp hcf hhtml thh hpath hrel hrp
    have htp : truthy (J.obj pkvs) = true := by
      cases pkvs with
      | nil => cases hhtml
      | cons q qs => rfl
    simp only [finalizarProcess, hparams, Option.getD_some, Option.getD_none, htp, if_true,
      hcf, hhtml, thh, hpath, hrel, hrp, truthy_null, Bool.false_eq_true, if_false]
  · intro hc rp hcf hhf hhc thc hpath hrel hrp
    have htp : truthy (J.obj pkvs) = true := by
      cases pkvs with
      | nil => cases hhc
      | cons q qs => rfl
    simp only [finalizarProcess, hparams, Option.getD_some, Option.getD_none, htp, if_true,
      hcf, hhf, hhc, thc, hpath, hrel, hrp, truthy_null, Bool.false_eq_true, if_false]
  · intro h1 h2 h3
    by_cases hpk : truthy (J.obj pkvs) = true
    · simp only [finalizarProcess, hparams, Option.getD_some, hpk, if_true,
        h1, h2, h3, truthy_null, Bool.false_eq_true, if_false]
    · have hpk2 : truthy (J.obj pkvs) = false := by
        cases h : truthy (J.obj pkvs) with
        | false => rfl
        | true => exact absurd h hpk
      simp only [finalizarProcess, hparams, Option.getD_some, hpk2, Bool.false_eq_true,
        if_false, truthy_null, lookupL, Option.getD_none]
  · intro c hc htc hpf hrf
    have htp : truthy (J.obj pkvs) = true := by
      cases pkvs with
      | nil => cases hc
      | cons q qs => rfl
    simp only [finalizarProcess, hparams, Option.getD_some, Option.getD_none, htp, if_true,
      hc, htc, hpf, hrf, truthy_null, Bool.false_eq_true, if_false]
  · intro s akvs evs fuel hdone ha htyp hfin
    have htyeq : (lookupL akvs "type").getD J.null = J.str "finalizar" :=
      (beqJ_iff _ _).mp htyp
    have htr : truthy (J.obj akvs) = true := by
      cases akvs with
      | nil => simp [lookupL] at htyeq
      | cons q qs => rfl
    have hleia : ((lookupL akvs "type").getD J.null == J.str "leia_arquivo") = false := by
      rw [htyeq]
      decide
    have hstep : step env s =
        .exited { s with totalSteps := s.totalSteps + 1, done := true } evs := by
      simp only [step, ha, htr, if_true, hleia, htyp, hfin, Bool.false_eq_true, if_false]
    exact ⟨hstep, finalizar_modelCalls env _ evs hfin,
      runLoop_exited env fuel s _ evs hdone hstep⟩

/-- C6, witness: truthy content, no explicit path, configured report path —
the content is written verbatim to the resolved report path. -/
theorem c6_witness :
    finalizarProcess envC6 actC6 =
      .ok [.fileWrite (if isabs "out.html" then "out.html"
                       else pjoin envC6.configDir "out.html") "<h1>r</h1>"] :=
  (c6_theorem envC6 actC6 [("content", J.str "<h1>r</h1>")] (by decide)).1
    "<h1>r</h1>" "out.html" (by decide) (by decide) (by decide) (by decide) (by decide)

def isExited : StepRes → Bool
  | .exited _ _ => true
  | _ => false

def envC7 : Env := { baseEnv with maxRequests := 3 }

def respC7 : J := J.obj [("memory", J.obj []), ("action", J.null), ("plan", J.arr [])]

def stC7 : LoopState :=
  { response := respC7, memory := J.obj [], totalSteps := 0, requestsMade := 1,
    callIdx := 0, done := false }

/-- C7, counterexample: a next-steps call that fails after retries, with
budget remaining, makes the loop break out (lines 801-803) — the surviving
state keeps the old response, which is not the synthetic error response the
claim promises for every in-loop failure. -/
theorem c7_counterexample :
    envC7.oracle stC7.callIdx = none
    ∧ (stC7.requestsMade : Int) < envC7.maxRequests
    ∧ isExited (step envC7 stC7) = true
    ∧ (stateOfRes stC7 (step envC7 stC7)).response ≠ syntheticError stC7.memory := by
  refine ⟨by decide, by decide, by decide, by decide⟩

/-- C7 (corrected): only the action-update turn converts a Gateway failure
into the synthetic error response and keeps looping (subject to the step
ceiling); the next-steps turn instead breaks out of the loop on failure,
leaving the previous response in place. -/
theorem c7_theorem (env : Env) (s : LoopState) (ts1 : Nat) (action att planVal : J)
    (hplan : planOf s.response = .ok planVal)
    (hbud : (s.requestsMade : Int) < env.maxRequests)
    (hfail : env.oracle s.callIdx = none) :
    doUpdate env s ts1 action att =
      afterCheck { s with totalSteps := ts1, callIdx := s.callIdx + 1,
                          response := syntheticError s.memory }
        [.modelCall (wrapGen env.isGenerateContent
          (updatePayload env s ts1 action att planVal))]
    ∧ doAsk env s =
      .exited { s with callIdx := s.callIdx + 1 }
        [.modelCall (wrapGen env.isGenerateContent (askPayload env s planVal))] := by
  have hvac : ¬ env.maxRequests ≤ (s.requestsMade : Int) := by omega
  constructor
  · simp only [doUpdate, hplan, hfail]
    rw [if_neg hvac]
  · simp only [doAsk, hplan, hfail]
    rw [if_neg hvac]

/-- C7, witness: with budget remaining and a failing oracle, the update turn
degrades to the synthetic error response while the ask turn exits. -/
theorem c7_witness :
    doUpdate envC7 stC7 1 J.null (J.obj []) =
      afterCheck { stC7 with totalSteps := 1, callIdx := stC7.callIdx + 1,
                             response := syntheticError stC7.memory }
        [.modelCall (wrapGen envC7.isGenerateContent
          (updatePayload envC7 stC7 1 J.null (J.obj []) (J.arr [])))]
    ∧ doAsk envC7 stC7 =
      .exited { stC7 with callIdx := stC7.callIdx + 1 }
        [.modelCall (wrapGen envC7.isGenerateContent (askPayload envC7 stC7 (J.arr [])))] :=
  c7_theorem envC7 stC7 1 J.null (J.obj []) (J.arr []) (by decide) (by decide) rfl

def strC8 : String := "\x7b\"a\": 1\x7d \x7d"

/-- C8, counterexample: the text holds exactly one well-formed JSON object
followed by a stray closing brace in the prose; the first-brace/last-brace
slice spans the stray brace too, fails to parse, and the normalizer falls
back to the raw-text wrapper instead of recovering the object's fields. -/
theorem c8_counterexample :
    strC8.data = ("\x7b\"a\": 1\x7d").data ++ (" \x7d").data
    ∧ loads "\x7b\"a\": 1\x7d" = some (J.obj [("a", J.num 1)])
    ∧ ensureStructured (J.str strC8) = .ok (fallbackRawText strC8)
    ∧ fallbackRawText strC8 ≠ J.obj [("a", J.num 1)] := by
  refine ⟨by decide, by decide, by decide, by decide⟩

/-- C8 (corrected): the first-brace/last-brace recovery restores the
embedded object's fields exactly when the surrounding prose is brace-clean —
no opening brace before the object and no closing brace after it; prose
braces widen the slice and defeat the recovery. -/
theorem c8_theorem (pre post : List Char) (kvs : List (String × J))
    (hwf : wfJ (J.obj kvs) = true)
    (hpre : lbrace ∉ pre) (hpost : rbrace ∉ post)
    (hfail : loads (String.mk (pre ++ dumpsL (J.obj kvs) ++ post)) = none) :
    ensureStructured (J.str (String.mk (pre ++ dumpsL (J.obj kvs) ++ post))) =
      .ok (J.obj kvs) := by
  obtain ⟨inner, hsh⟩ := dumpsL_obj_shape kvs
  have hbr : braceSlice (String.mk (pre ++ dumpsL (J.obj kvs) ++ post)).data =
      some (dumpsL (J.obj kvs)) := by
    show braceSlice (pre ++ dumpsL (J.obj kvs) ++ post) = some (dumpsL (J.obj kvs))
    rw [hsh]
    exact braceSlice_embed pre inner post hpre hpost
  simp only [ensureStructured, hfail, hbr, loadsL_dumps hwf]

/-- C8, witness: an object buried in brace-free prose round-trips exactly. -/
theorem c8_witness :
    ensureStructured (J.str (String.mk
      (("noise: ").data ++ dumpsL (J.obj [("a", J.num 1)]) ++ (" end").data))) =
      .ok (J.obj [("a", J.num 1)]) :=
  c8_theorem ("noise: ").data (" end").data [("a", J.num 1)]
    (by decide) (by decide) (by decide) (by decide)

/-- C9 (confirmed): serializing a well-formed mapping and normalizing the
result returns the mapping unchanged — the direct JSON parse of line 384
succeeds and is returned as-is, and memory being already present nothing
else would have been added. -/
theorem c9_theorem (kvs : List (String × J)) (hwf : wfJ (J.obj kvs) = true)
    (hmem : hasKeyL kvs "memory" = true) :
    ensureStructured (J.str (dumpsStr (J.obj kvs))) = .ok (J.obj kvs) := by
  simp only [ensureStructured, loads_dumps hwf]

/-- C9, witness: a concrete mapping with memory round-trips. -/
theorem c9_witness :
    ensureStructured (J.str (dumpsStr (J.obj [("memory", J.obj []), ("status", J.str "ok")]))) =
      .ok (J.obj [("memory", J.obj []), ("status", J.str "ok")]) :=
  c9_theorem [("memory", J.obj []), ("status", J.str "ok")] (by decide) (by decide)

/-- C10 (confirmed): a run whose single-attempt initial call raised exits
with failure before any action; the in-loop retry wrapper performs at most
its allowed number of attempts, and with the default of 5 attempts an
always-failing call makes exactly 5 attempts with backoff sleeps
2, 4, 6, 8 seconds, while a first-attempt success makes exactly one attempt
and no sleep. -/
theorem c10_theorem (env : Env) (fuel : Nat) (attempts : Nat → Option J) (isGen : Bool) :
    runMaestro env none fuel = .exitFailure
    ∧ (∀ n rem, (invokeAux attempts isGen n rem).attemptsMade ≤ rem)
    ∧ ((∀ n, attemptSuccess isGen (attempts n) = none) →
        invokeModelWithRetries attempts isGen 5 = ⟨none, 5, [2, 4, 6, 8]⟩)
    ∧ (∀ v, attemptSuccess isGen (attempts 1) = some v →
        invokeModelWithRetries attempts isGen 5 = ⟨some v, 1, []⟩) := by
  refine ⟨rfl, ?_, ?_, ?_⟩
  · intro n rem
    induction rem generalizing n with
    | zero => exact Nat.le_refl 0
    | succ rem ih =>
      simp only [invokeAux]
      split
      · show 1 ≤ rem + 1
        omega
      · cases rem with
        | zero => exact Nat.le_refl 1
        | succ r =>
          have h := ih (n + 1)
          show (invokeAux attempts isGen (n + 1) (r + 1)).attemptsMade + 1 ≤ r + 1 + 1
          omega
  · intro hall
    simp only [invokeModelWithRetries, invokeAux, hall]
  · intro v hfirst
    simp only [invokeModelWithRetries, invokeAux, hfirst]

/-- C10, witness: the always-failing oracle makes 5 attempts with sleeps
2, 4, 6, 8; a run with a failed initial call exits with failure. -/
theorem c10_witness :
    invokeModelWithRetries (fun _ => none) false 5 =
      { result := none, attemptsMade := 5, sleeps := [2, 4, 6, 8] }
    ∧ runMaestro baseEnv none 3 = .exitFailure :=
  ⟨(c10_theorem baseEnv 3 (fun _ => none) false).2.2.1 (fun n => rfl),
   (c10_theorem baseEnv 3 (fun _ => none) false).1⟩
